import Mathlib

/-!
Shallow embedding of the fraud-detection backend
(`src/backend/graph_engine.py`, `src/backend/scorer.py`,
`src/backend/main.py`) and proofs about it.

Modelling conventions (stated once, used throughout):
* Monetary amounts and scores are modelled as `ℚ` (the Python code uses
  floats; none of the verified properties depends on binary rounding of
  floats, and the concrete inputs used below keep all arithmetic exact).
* Timestamps are modelled as integers, in hours (the code uses
  `pd.Timestamp`/`timedelta`; every window computation in the code is of
  the form `ts + timedelta(hours=h)`, which becomes `ts + h`).
* A pandas DataFrame is modelled as a `List Tx` in table-row order.
* Python `round(x, n)` is modelled as rounding `x·10^n` to the nearest
  integer (the code never hits a half-way tie in any statement below, so
  the bankers-rounding difference is irrelevant).
* Python dicts preserve insertion order; they are modelled as ordered
  association lists.  Python sets have implementation-defined iteration
  order; where the code iterates a set, the model iterates the underlying
  elements in first-appearance order, and every order-sensitive theorem
  below only uses inputs for which the iterated set has at most one
  element (or for which the result is order-independent), as noted at the
  definition site.
-/

/- The Batteries rational arithmetic is marked irreducible, which blocks
the evaluation of concrete statements about this development by
`decide`; restoring the default reducibility changes no meaning (every
proof still passes the kernel with the standard axioms). -/
set_option allowUnsafeReducibility true in
attribute [semireducible] Rat.add Rat.mul Rat.sub Rat.inv

/-- Remove duplicates keeping the first occurrence of each element,
preserving order (the order in which keys enter a Python dict/groupby). -/
def dedupFirst {α : Type} [DecidableEq α] : List α → List α
  | [] => []
  | a :: as => a :: (dedupFirst as).filter (· ≠ a)

theorem mem_dedupFirst {α : Type} [DecidableEq α] {l : List α} {x : α} :
    x ∈ dedupFirst l ↔ x ∈ l := by
  induction l with
  | nil => simp [dedupFirst]
  | cons a as ih =>
    rw [dedupFirst]
    by_cases hx : x = a
    · simp [hx]
    · simp only [List.mem_cons, hx, false_or, List.mem_filter, ih]
      constructor
      · exact fun ⟨h, _⟩ => h
      · exact fun h => ⟨h, by simp [hx]⟩

theorem nodup_dedupFirst {α : Type} [DecidableEq α] (l : List α) :
    (dedupFirst l).Nodup := by
  induction l with
  | nil => simp [dedupFirst]
  | cons a as ih =>
    rw [dedupFirst]
    refine List.nodup_cons.2 ⟨fun hmem => ?_, List.Nodup.filter _ ih⟩
    rw [List.mem_filter] at hmem
    have h2 := hmem.2
    simp at h2

/-- Stable insertion into a list already sorted by the boolean
"less-or-equal" key `le`: the new element goes after every existing
element it does not strictly precede (this is how a stable sort keeps
the original order of equal keys). -/
def stableInsert {α : Type} (le : α → α → Bool) (x : α) : List α → List α
  | [] => [x]
  | h :: t => if le h x then h :: stableInsert le x t else x :: h :: t

/-- Stable sort by the boolean key `le` (insertion sort; models
pandas' stable sorting where ties keep table order). -/
def stableSortBy {α : Type} (le : α → α → Bool) (l : List α) : List α :=
  l.foldl (fun acc x => stableInsert le x acc) []

/-- Decimal digits of `n`, least-significant first, with explicit fuel so
that the definition is structurally recursive (kernel-reducible). -/
def decDigitsRevF : ℕ → ℕ → List ℕ
  | 0, n => [n]
  | f + 1, n => if n < 10 then [n] else (n % 10) :: decDigitsRevF f (n / 10)

/-- Decimal digits of `n`, least-significant first. -/
def decDigitsRev (n : ℕ) : List ℕ := decDigitsRevF n n

/-- Value of a little-endian digit list. -/
def digitsVal : List ℕ → ℕ
  | [] => 0
  | d :: ds => d + 10 * digitsVal ds

theorem digitsVal_decDigitsRevF :
    ∀ f n, n ≤ f → digitsVal (decDigitsRevF f n) = n := by
  intro f
  induction f with
  | zero =>
    intro n hn
    have : n = 0 := Nat.le_zero.1 hn
    simp [this, decDigitsRevF, digitsVal]
  | succ f ih =>
    intro n hn
    rw [decDigitsRevF]
    by_cases h : n < 10
    · simp [h, digitsVal]
    · have hdiv : n / 10 ≤ f := by omega
      simp only [h, ite_false, digitsVal, ih _ hdiv]
      omega

theorem digitsVal_decDigitsRev (n : ℕ) : digitsVal (decDigitsRev n) = n :=
  digitsVal_decDigitsRevF n n le_rfl

theorem decDigitsRev_injective : Function.Injective decDigitsRev := by
  intro a b hab
  have := digitsVal_decDigitsRev a
  rw [hab, digitsVal_decDigitsRev] at this
  exact this.symm

theorem decDigitsRevF_lt10 :
    ∀ f n, n ≤ f → ∀ d ∈ decDigitsRevF f n, d < 10 := by
  intro f
  induction f with
  | zero =>
    intro n hn d hd
    have : n = 0 := Nat.le_zero.1 hn
    subst this
    simp [decDigitsRevF] at hd
    omega
  | succ f ih =>
    intro n hn d hd
    rw [decDigitsRevF] at hd
    by_cases h : n < 10
    · simp [h] at hd; omega
    · simp only [h, ite_false, List.mem_cons] at hd
      rcases hd with rfl | hd
      · omega
      · exact ih _ (by omega) d hd

theorem decDigitsRev_lt10 (n : ℕ) : ∀ d ∈ decDigitsRev n, d < 10 :=
  decDigitsRevF_lt10 n n le_rfl

theorem decDigitsRevF_ne_nil (f n : ℕ) : decDigitsRevF f n ≠ [] := by
  cases f with
  | zero => simp [decDigitsRevF]
  | succ f => rw [decDigitsRevF]; split <;> simp

theorem decDigitsRev_ne_nil (n : ℕ) : decDigitsRev n ≠ [] :=
  decDigitsRevF_ne_nil n n

theorem decDigitsRevF_getLast_ne_zero :
    ∀ f n, 0 < n → n ≤ f → (decDigitsRevF f n).getLast? ≠ some 0 := by
  intro f
  induction f with
  | zero => intro n hn h0; omega
  | succ f ih =>
    intro n hn hf
    rw [decDigitsRevF]
    by_cases h : n < 10
    · simp only [h, ite_true, List.getLast?_singleton]
      intro hc
      have : n = 0 := by exact_mod_cast Option.some.inj hc
      omega
    · simp only [h, ite_false]
      cases hl : decDigitsRevF f (n / 10) with
      | nil => exact absurd hl (decDigitsRevF_ne_nil _ _)
      | cons b t =>
        rw [List.getLast?_cons_cons, ← hl]
        exact ih (n / 10) (by omega) (by omega)

theorem decDigitsRev_getLast_ne_zero {n : ℕ} (hn : 0 < n) :
    (decDigitsRev n).getLast? ≠ some 0 :=
  decDigitsRevF_getLast_ne_zero n n hn le_rfl

/-- The character for a decimal digit (`0`–`9`). -/
def digChar (d : ℕ) : Char := Char.ofNat (48 + d)

theorem digChar_inj {a b : ℕ} (ha : a < 10) (hb : b < 10)
    (h : digChar a = digChar b) : a = b := by
  interval_cases a <;> interval_cases b <;> simp_all [digChar]

/-- Decimal string of a natural number (the value of Python `str(n)` for
nonnegative `n`). -/
def decString (n : ℕ) : String :=
  String.mk ((decDigitsRev n).reverse.map digChar)

theorem map_digChar_inj :
    ∀ (xs ys : List ℕ), (∀ d ∈ xs, d < 10) → (∀ d ∈ ys, d < 10) →
      xs.map digChar = ys.map digChar → xs = ys := by
  intro xs
  induction xs with
  | nil =>
    intro ys _ _ h
    cases ys with
    | nil => rfl
    | cons y yt => simp at h
  | cons x xt ih =>
    intro ys hx hy h
    cases ys with
    | nil => simp at h
    | cons y yt =>
      simp only [List.map_cons, List.cons.injEq] at h
      have h1 : x = y := digChar_inj (hx x (by simp)) (hy y (by simp)) h.1
      have h2 : xt = yt :=
        ih yt (fun d hd => hx d (by simp [hd])) (fun d hd => hy d (by simp [hd])) h.2
      rw [h1, h2]

theorem decString_injective : Function.Injective decString := by
  intro a b hab
  apply decDigitsRev_injective
  have hlist : (decDigitsRev a).reverse.map digChar
      = (decDigitsRev b).reverse.map digChar := congrArg String.data hab
  have hrev : (decDigitsRev a).reverse = (decDigitsRev b).reverse :=
    map_digChar_inj _ _
      (fun d hd => decDigitsRev_lt10 a d (List.mem_reverse.1 hd))
      (fun d hd => decDigitsRev_lt10 b d (List.mem_reverse.1 hd))
      hlist
  exact List.reverse_injective hrev

theorem decString_data_cons {n : ℕ} (hn : 0 < n) :
    ∃ c t, (decString n).data = c :: t ∧ (c == '0') = false := by
  obtain ⟨L, d, hLd⟩ :=
    (List.eq_nil_or_concat (decDigitsRev n)).resolve_left (decDigitsRev_ne_nil n)
  rw [List.concat_eq_append] at hLd
  have hlast : (decDigitsRev n).getLast? = some d := by
    rw [hLd]; exact List.getLast?_concat L
  have hd0 : d ≠ 0 := by
    intro h; exact decDigitsRev_getLast_ne_zero hn (h ▸ hlast)
  have hd10 : d < 10 := decDigitsRev_lt10 n d (by rw [hLd]; simp)
  refine ⟨digChar d, L.reverse.map digChar, ?_, ?_⟩
  · simp [decString, hLd, List.reverse_append]
  · have h1 : 1 ≤ d := Nat.one_le_iff_ne_zero.2 hd0
    interval_cases d <;> decide

/-- Python `f"{n:04d}"`: the decimal representation of `n`,
left-padded with `0` to at least four characters. -/
def pad4 (n : ℕ) : String :=
  let s := decString n
  String.mk (List.replicate (4 - s.length) '0') ++ s

theorem mk_append_mk (xs ys : List Char) :
    String.mk xs ++ String.mk ys = String.mk (xs ++ ys) := rfl

theorem dropZeros_replicate_append (j : ℕ) (xs : List Char)
    (hx : ∀ c t, xs = c :: t → (c == '0') = false) :
    List.dropWhile (· == '0') (List.replicate j '0' ++ xs) = xs := by
  induction j with
  | zero =>
    cases xs with
    | nil => simp
    | cons c t => simp [List.dropWhile_cons, hx c t rfl]
  | succ j ih => simpa [List.replicate_succ, List.dropWhile_cons] using ih

theorem pad4_data (n : ℕ) :
    (pad4 n).data
      = List.replicate (4 - (decString n).length) '0'
        ++ (decDigitsRev n).reverse.map digChar := by
  rfl

theorem dropZeros_pad4 {n : ℕ} (hn : 0 < n) :
    List.dropWhile (· == '0') (pad4 n).data = (decString n).data := by
  obtain ⟨c, t, hct, hc0⟩ := decString_data_cons hn
  rw [pad4_data]
  have : (decDigitsRev n).reverse.map digChar = (decString n).data := rfl
  rw [this, hct]
  exact dropZeros_replicate_append _ _ (by rintro c' t' h; cases h; exact hc0)

theorem pad4_injective : Function.Injective pad4 := by
  intro a b hab
  rcases Nat.eq_zero_or_pos a with ha | ha <;>
    rcases Nat.eq_zero_or_pos b with hb | hb
  · rw [ha, hb]
  · exfalso
    subst ha
    have h0 : pad4 0 = "0000" := by decide
    have hdrop := dropZeros_pad4 hb
    rw [← hab, h0] at hdrop
    have hempty : List.dropWhile (· == '0') ("0000" : String).data = [] := by decide
    rw [hempty] at hdrop
    obtain ⟨c, t, hct, _⟩ := decString_data_cons hb
    rw [hct] at hdrop
    exact List.cons_ne_nil _ _ hdrop.symm
  · exfalso
    subst hb
    have h0 : pad4 0 = "0000" := by decide
    have hdrop := dropZeros_pad4 ha
    rw [hab, h0] at hdrop
    have hempty : List.dropWhile (· == '0') ("0000" : String).data = [] := by decide
    rw [hempty] at hdrop
    obtain ⟨c, t, hct, _⟩ := decString_data_cons ha
    rw [hct] at hdrop
    exact List.cons_ne_nil _ _ hdrop.symm
  · have hda := dropZeros_pad4 ha
    have hdb := dropZeros_pad4 hb
    rw [hab] at hda
    have : (decString a).data = (decString b).data := by rw [← hda, ← hdb]
    exact decString_injective (congrArg String.mk this)

/-! ## Data model

A transaction row of the input table (columns `transaction_id`,
`sender_id`, `receiver_id`, `amount`, `timestamp`); ids are strings,
the amount is a rational, the timestamp an integer number of hours. -/

structure Tx where
  txid : String
  sender : String
  receiver : String
  amount : ℚ
  ts : ℤ
deriving DecidableEq, Repr

/-- Python `round(x, 2)`. -/
def round2 (q : ℚ) : ℚ := (round (q * 100) : ℤ) / 100

/-- Python `round(x, 4)`. -/
def round4 (q : ℚ) : ℚ := (round (q * 10000) : ℤ) / 10000

/-- Does `pat` occur at the head of `l`? -/
def listLeads : List Char → List Char → Bool
  | [], _ => true
  | _ :: _, [] => false
  | c :: cs, d :: ds => c == d && listLeads cs ds

/-- Does `pat` occur anywhere in `l`? -/
def hasSubList (pat : List Char) : List Char → Bool
  | [] => listLeads pat []
  | c :: rest => listLeads pat (c :: rest) || hasSubList pat rest

/-- Python `pat in s` (substring containment). -/
def strContains (s pat : String) : Bool := hasSubList pat.data s.data

/-- Python `s.lower()` (ASCII; all strings in this development are
ASCII, where `Char.toLower` agrees with Python). -/
def strLower (s : String) : String := String.mk (s.data.map Char.toLower)

/-- Code-point lexicographic `≤` on strings (Python's string order). -/
def listLexLe : List Char → List Char → Bool
  | [], _ => true
  | _ :: _, [] => false
  | c :: cs, d :: ds =>
    if c.val < d.val then true
    else if d.val < c.val then false
    else listLexLe cs ds

/-- Python `a <= b` on strings. -/
def strLeB (a b : String) : Bool := listLexLe a.data b.data

/-! ## Graph builder (`FraudDetectionEngine._build_graph`)

The graph is a `networkx.DiGraph` built from
`df.groupby(["sender_id","receiver_id"], sort=False)
   .agg(weight=sum, tx_count=count, tx_ids=list)`:
one edge per ordered (sender, receiver) pair, in first-occurrence order,
with `weight` the sum of the group's amounts, `tx_count` its row count
and `tx_ids` its transaction ids in table order. -/

structure Edge where
  src : String
  dst : String
  weight : ℚ
  txCount : ℕ
  txIds : List String
deriving DecidableEq, Repr

/-- The rows of a (sender, receiver) group, in table order. -/
def pairRows (rows : List Tx) (s r : String) : List Tx :=
  rows.filter (fun t => t.sender == s && t.receiver == r)

/-- `FraudDetectionEngine._build_graph`: one aggregated edge per distinct
ordered (sender, receiver) pair, pairs in first-occurrence order
(`groupby(..., sort=False)` preserves first-appearance order of keys). -/
def buildGraph (rows : List Tx) : List Edge :=
  (dedupFirst (rows.map (fun t => (t.sender, t.receiver)))).map
    (fun p =>
      let grp := pairRows rows p.1 p.2
      { src := p.1, dst := p.2,
        weight := (grp.map (·.amount)).sum,
        txCount := grp.length,
        txIds := grp.map (·.txid) })

/-- Node list of the graph in insertion order: `nx.DiGraph.add_edge(u, v)`
inserts `u` then `v` into the (insertion-ordered) node dict, edges being
added in grouped order. -/
def nodeOrder (g : List Edge) : List String :=
  dedupFirst (g.flatMap (fun e => [e.src, e.dst]))

/-- `graph.successors(n)`: adjacency in edge-insertion order. -/
def succs (g : List Edge) (n : String) : List String :=
  (g.filter (·.src == n)).map (·.dst)

/-- `graph.predecessors(n)`. -/
def preds (g : List Edge) (n : String) : List String :=
  (g.filter (·.dst == n)).map (·.src)

/-- `graph[u][v]` / `graph.get_edge_data(u, v)`. -/
def edgeBetween? (g : List Edge) (u v : String) : Option Edge :=
  g.find? (fun e => e.src == u && e.dst == v)

/-- `graph.has_edge(u, v)`. -/
def hasEdge (g : List Edge) (u v : String) : Bool :=
  (edgeBetween? g u v).isSome

/-! ## Suspicion registry (`FraudDetectionEngine._mark_suspicious`)

An entry is the Python dict
`{"account_id": ..., "ring_id": ..., "reasons": [...], **extra-keys}`.
The three fixed keys are modelled as fields, the remaining keys as an
insertion-ordered association list.  `entry.update(extra)` overwrites
*any* key, fixed keys included, which `entryUpdate` reproduces. -/

inductive Val where
  | s (v : String)
  | i (v : ℤ)
  | q (v : ℚ)
  | ls (v : List String)
deriving DecidableEq, Repr

structure Entry where
  account_id : String
  ring_id : Option String
  reasons : List String
  extra : List (String × Val)
deriving DecidableEq, Repr

/-- Python dict assignment `d[k] = v`: overwrite in place, or append. -/
def dictSet (d : List (String × Val)) (k : String) (v : Val) :
    List (String × Val) :=
  if d.any (fun p => p.1 == k) then
    d.map (fun p => if p.1 == k then (k, v) else p)
  else d ++ [(k, v)]

/-- Assignment of one key of the entry dict (fixed keys are fields).
The detectors only ever put strings under `ring_id`, lists of strings
under `reasons` and a string under `account_id`; other value shapes for
those keys are unreachable and default to the field type. -/
def entrySetKey (e : Entry) (k : String) (v : Val) : Entry :=
  if k == "account_id" then
    { e with account_id := match v with | .s x => x | _ => e.account_id }
  else if k == "ring_id" then
    { e with ring_id := match v with | .s x => some x | _ => none }
  else if k == "reasons" then
    { e with reasons := match v with | .ls x => x | _ => e.reasons }
  else { e with extra := dictSet e.extra k v }

/-- Python `entry.update(extra)`: last-write-wins per key, in key order of
`extra`, fixed keys included. -/
def entryUpdate (e : Entry) (kvs : List (String × Val)) : Entry :=
  kvs.foldl (fun e kv => entrySetKey e kv.1 kv.2) e

/-- `FraudDetectionEngine._mark_suspicious(account_id, reason, ring_id,
extra)`: create the entry if absent (with the given ring id and empty
reasons), append the reason, set `ring_id` if it is still `None`, then
`entry.update(extra)` (a `None`/empty `extra` is a no-op, which the fold
over `[]` reproduces). -/
def markEntry (e : Entry) (reason ring_id : String)
    (extra : List (String × Val)) : Entry :=
  let e1 := { e with reasons := e.reasons ++ [reason] }
  let e2 := if e1.ring_id = none then { e1 with ring_id := some ring_id }
            else e1
  entryUpdate e2 extra

def markSuspicious (reg : List Entry) (account_id reason ring_id : String)
    (extra : List (String × Val)) : List Entry :=
  let reg :=
    if reg.any (fun e => e.account_id == account_id) then reg
    else reg ++ [{ account_id := account_id, ring_id := some ring_id,
                   reasons := [], extra := [] }]
  reg.map fun e =>
    if e.account_id == account_id then markEntry e reason ring_id extra
    else e

/-- Lookup `self._suspicious.get(account_id)`. -/
def regEntry? (reg : List Entry) (account_id : String) : Option Entry :=
  reg.find? (fun e => e.account_id == account_id)

/-! ## Legitimacy classifier
(`FraudDetectionEngine._is_likely_legitimate`) -/

/-- `series.value_counts()` restricted to what the classifier consumes:
the multiset of (key, multiplicity) pairs.  (pandas orders them by
descending count, but the classifier only takes counts of counts and
lengths, which are order-independent.) -/
def valueCounts (l : List String) : List (String × ℕ) :=
  (dedupFirst l).map (fun k => (k, (l.filter (· == k)).length))

/-- `series.nunique()`. -/
def nunique (l : List String) : ℕ := (dedupFirst l).length

/-- `series.mean()`. -/
def listMean (xs : List ℚ) : ℚ := xs.sum / (xs.length : ℚ)

/-- `series.std()` squared: the sample variance (`ddof=1`).  The code
compares `std / (mean + 1e-9) < 0.15`; `cvBelow015` below renders that
comparison squared, avoiding an irrational square root. -/
def sampleVar (xs : List ℚ) : ℚ :=
  ((xs.map (fun x => (x - listMean xs) ^ 2)).sum) / ((xs.length : ℚ) - 1)

/-- The source's `cv < 0.15` with `cv = std / (mean + 1e-9)`.
For a positive denominator `m` this is `std² < (0.15·m)²`; for a negative
`m` the quotient is nonpositive, hence below 0.15; a zero denominator
gives `inf`/`nan` in Python, which is not `< 0.15`. -/
def cvBelow015 (xs : List ℚ) : Bool :=
  let m := listMean xs + 1 / 1000000000
  if 0 < m then sampleVar xs < (3 / 20 * m) ^ 2
  else if m < 0 then true
  else false

/-- `FraudDetectionEngine._is_likely_legitimate(account_id)`.
The first matching rule returns; the mule-fingerprint rule (rule 4) and
the fall-through default both return `False`, so they merge into the
final branch. -/
def isLikelyLegitimate (rows : List Tx) (account_id : String) : Bool :=
  let sent := rows.filter (fun t => t.sender == account_id)
  let received := rows.filter (fun t => t.receiver == account_id)
  let rule1 :=
    if 0 < sent.length then
      let rc := valueCounts (sent.map (·.receiver))
      (((rc.filter (fun p => 1 < p.2)).length : ℚ) / (rc.length : ℚ)) ≥ 2 / 5
    else false
  let rule2 :=
    if 0 < received.length then
      let sc := valueCounts (received.map (·.sender))
      (((sc.filter (fun p => 1 < p.2)).length : ℚ) / (sc.length : ℚ)) ≥ 2 / 5
    else false
  let rule3 :=
    if 5 ≤ sent.length then
      cvBelow015 (sent.map (·.amount)) && (received.length * 3 ≤ sent.length)
    else false
  if rule1 then true
  else if rule2 then true
  else if rule3 then true
  else false

/-! ## Fan detector (`FraudDetectionEngine.detect_fan_in_out`) -/

/-- Python `str(z)` for an integer. -/
def intStr (z : ℤ) : String :=
  if z < 0 then "-" ++ decString z.natAbs else decString z.natAbs

structure FanRing where
  ring_id : String
  account_id : String
  pattern : String
  counterparty_count : ℕ
  window_start : ℤ
  window_end : ℤ
  tx_ids : List String
  total_amount : ℚ
deriving DecidableEq, Repr

/-- The `info` dict of a fan finding, in its key-insertion order, as it is
passed to `_mark_suspicious(..., extra=info)`.  The window bounds are
`str(pd.Timestamp)` in Python; under the integer-hours timestamp model
they are kept as integer values. -/
def fanInfoExtra (f : FanRing) : List (String × Val) :=
  [("ring_id", Val.s f.ring_id),
   ("account_id", Val.s f.account_id),
   ("pattern", Val.s f.pattern),
   ("counterparty_count", Val.i f.counterparty_count),
   ("window_start", Val.i f.window_start),
   ("window_end", Val.i f.window_end),
   ("tx_ids", Val.ls f.tx_ids),
   ("total_amount", Val.q f.total_amount)]

/-- State threaded through `detect_fan_in_out`: the (shared) ring
counter, the findings list and the suspicion registry. -/
structure FanSt where
  counter : ℕ
  results : List FanRing
  reg : List Entry
deriving Repr

/-- Rows of `subset` whose timestamp lies in `[ts, ts + window]`. -/
def windowTxnsOf (subset : List Tx) (ts window : ℤ) : List Tx :=
  subset.filter (fun u => ts ≤ u.ts && u.ts ≤ ts + window)

/-- Distinct counterparties (`nunique` of the other column) inside the
window starting at `ts`. -/
def fanCounterparties (subset : List Tx) (asReceiver : Bool)
    (ts window : ℤ) : ℕ :=
  nunique ((windowTxnsOf subset ts window).map
    (fun u => if asReceiver then u.sender else u.receiver))

/-- `detect_fan_in_out._check_account(account_id, as_receiver)`: scan the
account's rows in timestamp order; at the first row whose window holds
`≥ threshold` distinct counterparties, record the finding, consult the
legitimacy classifier, mark the account unless legitimate, and stop. -/
def checkAccountFan (rows dfSorted : List Tx) (threshold : ℕ)
    (windowHours : ℤ) (account_id : String) (asReceiver : Bool)
    (st : FanSt) : FanSt :=
  let subset := dfSorted.filter
    (fun t => (if asReceiver then t.receiver else t.sender) == account_id)
  let pattern := if asReceiver then "FAN-IN" else "FAN-OUT"
  match subset.find? (fun t =>
      threshold ≤ fanCounterparties subset asReceiver t.ts windowHours) with
  | none => st
  | some t =>
    let windowTxns := windowTxnsOf subset t.ts windowHours
    let counterparties := fanCounterparties subset asReceiver t.ts windowHours
    let counter := st.counter + 1
    let ring_id := pattern ++ "-" ++ pad4 counter
    let info : FanRing :=
      { ring_id := ring_id, account_id := account_id, pattern := pattern,
        counterparty_count := counterparties,
        window_start := t.ts, window_end := t.ts + windowHours,
        tx_ids := windowTxns.map (·.txid),
        total_amount := round2 ((windowTxns.map (·.amount)).sum) }
    let results := st.results ++ [info]
    let reg :=
      if isLikelyLegitimate rows account_id then st.reg
      else
        markSuspicious st.reg account_id
          (pattern ++ " pattern (" ++ decString counterparties
            ++ " counterparties in " ++ intStr windowHours ++ "h)")
          ring_id (fanInfoExtra info)
    { counter := counter, results := results, reg := reg }

/-- Candidate accounts for one direction: accounts whose per-direction
row count is `≥ threshold`.  The source wraps them in a Python `set` and
iterates it (implementation-defined order); the model iterates them in
first-appearance order.  Every theorem below whose statement depends on
this order uses inputs for which each candidate set has at most one
element. -/
def fanCandidates (rows : List Tx) (threshold : ℕ)
    (proj : Tx → String) : List String :=
  (dedupFirst (rows.map proj)).filter
    (fun a => threshold ≤ (rows.filter (fun t => proj t == a)).length)

/-- `detect_fan_in_out(threshold, window_hours)`: check all fan-in
candidates (as receiver), then all fan-out candidates (as sender), with
one shared ring counter.  `df_sorted = df.sort_values("timestamp")`;
ties between equal timestamps are broken arbitrarily by pandas, and every
quantity the detector derives from `df_sorted` (window membership,
distinct counts, sums) depends only on timestamp values, so a stable sort
is a faithful representative. -/
def detectFanInOut (threshold : ℕ) (windowHours : ℤ) (rows : List Tx)
    (reg : List Entry) : List FanRing × List Entry :=
  let dfSorted := stableSortBy (fun a b => a.ts ≤ b.ts) rows
  let st1 := (fanCandidates rows threshold (·.receiver)).foldl
    (fun st a => checkAccountFan rows dfSorted threshold windowHours a true st)
    ⟨0, [], reg⟩
  let st2 := (fanCandidates rows threshold (·.sender)).foldl
    (fun st a => checkAccountFan rows dfSorted threshold windowHours a false st)
    st1
  (st2.results, st2.reg)

/-! ## Cycle detector (`FraudDetectionEngine.detect_cycles`)

The source delegates SCC computation to
`nx.strongly_connected_components` and cycle enumeration to
`nx.simple_cycles`.  Both are modelled below:

* node iteration follows the graph's node-insertion order (a `networkx`
  graph stores nodes in an insertion-ordered dict);
* SCCs are listed in order of their first node.  The library yields SCCs
  in DFS completion order, which coincides with first-node order whenever
  the SCCs of interest lie in separate weak components — true of every
  input used by an order-sensitive theorem below (the general theorems do
  not depend on SCC order);
* simple cycles inside one SCC are enumerated Johnson-style: start
  vertices in subgraph order, each cycle reported rooted at its earliest
  vertex, so each directed cycle appears exactly once.  Every input used
  by an order-sensitive theorem has at most one cycle per SCC. -/

/-- One breadth-step of reachability: the set reached so far plus all of
its successors (first-appearance order). -/
def expandOnce (g : List Edge) (cur : List String) : List String :=
  dedupFirst (cur ++ cur.flatMap (succs g))

/-- Nodes reachable from `n` (iterating `|V|` single steps reaches the
fixpoint, since each non-final step strictly grows the list). -/
def reachList (g : List Edge) (n : String) : List String :=
  (expandOnce g)^[(nodeOrder g).length] [n]

/-- The strongly connected component of `n`, as the node-order-respecting
list of nodes mutually reachable with `n`. -/
def sccOf (g : List Edge) (n : String) : List String :=
  (nodeOrder g).filter
    (fun m => (reachList g n).contains m && (reachList g m).contains n)

/-- All SCCs of the graph, in order of their first node (see the section
comment for why this matches the library on the inputs that matter). -/
def sccsOf (g : List Edge) : List (List String) :=
  dedupFirst ((nodeOrder g).map (sccOf g))

/-- Fuel for the explicit-stack DFS routines below.  The recursion stops
as soon as its work stack empties; the fuel is a generous upper bound on
the number of DFS steps, ample for every input considered here (the
source itself truncates cycle enumeration with a 10,000-cycle cap). -/
def dfsFuel : ℕ := 1000000

/-- Johnson-style simple-cycle DFS from `start`, restricted to `allowed`
nodes, with an explicit stack of (reversed path, pending successors)
frames so that the recursion is structural in the fuel.  Emission order
equals that of the recursive formulation. -/
def cycleSteps (g : List Edge) (allowed : List String) (start : String) :
    ℕ → List (List String × List String) → List (List String)
  | 0, _ => []
  | _ + 1, [] => []
  | f + 1, (_, []) :: stack => cycleSteps g allowed start f stack
  | f + 1, (path, nb :: rest) :: stack =>
    if nb == start then
      path.reverse :: cycleSteps g allowed start f ((path, rest) :: stack)
    else if allowed.contains nb && !path.contains nb then
      cycleSteps g allowed start f
        ((nb :: path, succs g nb) :: (path, rest) :: stack)
    else cycleSteps g allowed start f ((path, rest) :: stack)

/-- `nx.simple_cycles` on the subgraph induced by `sub` (a node list in
subgraph order): for the `i`-th node `s`, cycles through `s` avoiding
all earlier nodes. -/
def simpleCyclesModel (g : List Edge) (sub : List String) :
    List (List String) :=
  (List.range sub.length).flatMap (fun i =>
    match sub.drop i with
    | [] => []
    | s :: rest => cycleSteps g (s :: rest) s dfsFuel [([s], succs g s)])

structure CycleRing where
  ring_id : String
  cycle : List String
  accounts : List String
  total_amount : ℚ
  tx_ids : List String
deriving DecidableEq, Repr

/-- The adjacent pairs `(cycle[i], cycle[(i+1) % len])` walked by
`detect_cycles` when accumulating the cycle's amount. -/
def cyclePairs (cycle : List String) : List (String × String) :=
  (List.range cycle.length).map
    (fun i => (cycle.getD i "", cycle.getD ((i + 1) % cycle.length) ""))

/-- Total amount of a cycle: sum of edge weights over adjacent pairs in
cycle order, where the edge exists. -/
def cycleTotal (g : List Edge) (cycle : List String) : ℚ :=
  ((cyclePairs cycle).filterMap
    (fun p => (edgeBetween? g p.1 p.2).map (·.weight))).sum

/-- Transaction ids collected along the cycle, in the same walk. -/
def cycleTxIds (g : List Edge) (cycle : List String) : List String :=
  (cyclePairs cycle).flatMap
    (fun p => match edgeBetween? g p.1 p.2 with
      | some e => e.txIds
      | none => [])

/-- State threaded through `detect_cycles`. -/
structure CycSt where
  results : List CycleRing
  seen : List (List String)
  counter : ℕ
  reg : List Entry
deriving Repr

/-- `sorted(cycle)`: the canonical deduplication key (Python sorts
strings by code points). -/
def sortStrings (l : List String) : List String :=
  stableSortBy strLeB l

/-- Body of the inner loop of `detect_cycles` for one enumerated cycle:
length filter, canonical-key deduplication, counter increment, the
`total_amount < 1000` discard, and otherwise ring recording plus
suspicion marks. -/
def cycleStep (g : List Edge) (minLen maxLen : ℕ) (st : CycSt)
    (cycle : List String) : CycSt :=
  if minLen ≤ cycle.length ∧ cycle.length ≤ maxLen then
    let key := sortStrings cycle
    if st.seen.contains key then st
    else
      let seen := st.seen ++ [key]
      let counter := st.counter + 1
      let ring_id := "CYCLE-" ++ pad4 counter
      let total := cycleTotal g cycle
      if total < 1000 then
        { st with seen := seen, counter := counter }
      else
        let ring : CycleRing :=
          { ring_id := ring_id, cycle := cycle, accounts := cycle,
            total_amount := round2 total, tx_ids := cycleTxIds g cycle }
        let reg := cycle.foldl (fun r a =>
          markSuspicious r a
            ("Participates in transaction cycle " ++ ring_id) ring_id
            [("cycle_length", Val.i cycle.length)]) st.reg
        { results := st.results ++ [ring], seen := seen,
          counter := counter, reg := reg }
  else st

/-- `detect_cycles(min_len, max_len)`: SCCs of size `≥ min_len`, cycle
enumeration per SCC capped at 10,000, the per-cycle step above. -/
def detectCycles (minLen maxLen : ℕ) (rows : List Tx)
    (reg : List Entry) : List CycleRing × List Entry :=
  let g := buildGraph rows
  let sccs := (sccsOf g).filter (fun scc => minLen ≤ scc.length)
  let st := sccs.foldl (fun st scc =>
      ((simpleCyclesModel g scc).take 10000).foldl
        (cycleStep g minLen maxLen) st)
    ⟨[], [], 0, reg⟩
  (st.results, st.reg)

/-! ## Shell-chain detector (`FraudDetectionEngine.detect_shell_networks`) -/

structure ShellRing where
  ring_id : String
  chain : List String
  accounts : List String
  hops : ℕ
  total_amount : ℚ
  tx_ids : List String
deriving DecidableEq, Repr

/-- State threaded through `detect_shell_networks`. -/
structure ShellSt where
  results : List ShellRing
  visited : List (List String)
  counter : ℕ
  reg : List Entry
deriving Repr

/-- Total transactions of an account (appearances as sender plus
appearances as receiver), as accumulated by the detector's
`tx_counts` pass over the rows. -/
def txTotalCount (rows : List Tx) (a : String) : ℕ :=
  (rows.filter (fun t => t.sender == a)).length
    + (rows.filter (fun t => t.receiver == a)).length

/-- The shell set: accounts with `≤ max_txns` total transactions.  The
source iterates it as a Python `set` (implementation-defined order); the
model lists it in first-appearance order.  The set of emitted chains is
independent of this order (each entry point is explored exactly once);
only the ring numbering depends on it, and every theorem below that
depends on shell ring numbering uses inputs with at most one entry
point. -/
def shellNodesOf (rows : List Tx) (maxTxns : ℕ) : List String :=
  (dedupFirst (rows.flatMap (fun t => [t.sender, t.receiver]))).filter
    (fun a => txTotalCount rows a ≤ maxTxns)

/-- The edges found along a chain's consecutive pairs
(`get_edge_data(path[i], path[i+1])`, skipping missing edges). -/
def chainEdges (g : List Edge) (path : List String) : List Edge :=
  (path.zip path.tail).filterMap (fun p => edgeBetween? g p.1 p.2)

/-- Emission step of the shell DFS, reached when a path cannot be
extended and has length `≥ min_hops`: dedupe by exact path, mint
`SHELL-NNNN`, record the chain and mark every account on it. -/
def shellEmit (g : List Edge) (path : List String) (st : ShellSt) :
    ShellSt :=
  if st.visited.contains path then st
  else
    let visited := st.visited ++ [path]
    let counter := st.counter + 1
    let ring_id := "SHELL-" ++ pad4 counter
    let edges := chainEdges g path
    let ring : ShellRing :=
      { ring_id := ring_id, chain := path, accounts := path,
        hops := path.length - 1,
        total_amount := round2 ((edges.map (·.weight)).sum),
        tx_ids := edges.flatMap (·.txIds) }
    let reg := path.foldl (fun r a =>
      markSuspicious r a
        ("Shell network chain " ++ ring_id ++ " (length "
          ++ decString path.length ++ ")")
        ring_id [("chain_length", Val.i path.length)]) st.reg
    { results := st.results ++ [ring], visited := visited,
      counter := counter, reg := reg }

/-- The recursive `dfs(path)` of `detect_shell_networks`, as an
explicit-stack routine structural in its fuel.  A frame is
`(path, pending successors, extended?)`; a frame finishes when its
pending list empties, and emits iff it never extended and the path is
long enough — exactly the post-order behaviour of the recursion. -/
def shellSteps (g : List Edge) (shellN : List String) (minHops : ℕ) :
    ℕ → List (List String × List String × Bool) → ShellSt → ShellSt
  | 0, _, st => st
  | _ + 1, [], st => st
  | f + 1, (path, [], ext) :: stack, st =>
    let st' := if !ext && decide (minHops ≤ path.length)
               then shellEmit g path st else st
    shellSteps g shellN minHops f stack st'
  | f + 1, (path, nb :: rest, ext) :: stack, st =>
    if shellN.contains nb && !path.contains nb then
      shellSteps g shellN minHops f
        ((path ++ [nb], succs g nb, false) :: (path, rest, true) :: stack) st
    else
      shellSteps g shellN minHops f ((path, rest, ext) :: stack) st

/-- `detect_shell_networks(max_txns, min_hops)`: build the shell set,
start a DFS from every shell node with no shell predecessor. -/
def detectShellNetworks (maxTxns minHops : ℕ) (rows : List Tx)
    (reg : List Entry) : List ShellRing × List Entry :=
  let g := buildGraph rows
  let shellN := shellNodesOf rows maxTxns
  let st := shellN.foldl (fun st node =>
      if ((preds g node).filter (fun p => shellN.contains p)).isEmpty then
        shellSteps g shellN minHops dfsFuel
          [([node], succs g node, false)] st
      else st)
    ⟨[], [], 0, reg⟩
  (st.results, st.reg)

/-! ## Structuring detector (`FraudDetectionEngine.detect_structuring`) -/

structure StructRing where
  ring_id : String
  account_id : String
  pattern : String
  counterparty_count : ℕ
  window_start : ℤ
  window_end : ℤ
  tx_ids : List String
  total_amount : ℚ
  amount_ceiling : ℚ
deriving DecidableEq, Repr

/-- The `info` dict of a structuring finding, in key-insertion order. -/
def structInfoExtra (f : StructRing) : List (String × Val) :=
  [("ring_id", Val.s f.ring_id),
   ("account_id", Val.s f.account_id),
   ("pattern", Val.s f.pattern),
   ("counterparty_count", Val.i f.counterparty_count),
   ("window_start", Val.i f.window_start),
   ("window_end", Val.i f.window_end),
   ("tx_ids", Val.ls f.tx_ids),
   ("total_amount", Val.q f.total_amount),
   ("amount_ceiling", Val.q f.amount_ceiling)]

/-- Little-endian digits grouped in threes (for Python's `{:,.0f}`). -/
def commaGroups : List ℕ → List (List ℕ)
  | [] => []
  | [a] => [[a]]
  | [a, b] => [[a, b]]
  | [a, b, c] => [[a, b, c]]
  | a :: b :: c :: rest => [a, b, c] :: commaGroups rest

/-- Python `f"{n:,}"` for a natural number. -/
def fmtThousands (n : ℕ) : String :=
  String.intercalate ","
    (((commaGroups (decDigitsRev n)).map
      (fun grp => String.mk (grp.reverse.map digChar))).reverse)

/-- Python `f"{q:,.0f}"` for the nonnegative amounts used here. -/
def fmtMoney (q : ℚ) : String := fmtThousands (round q).toNat

structure StructSt where
  counter : ℕ
  results : List StructRing
  reg : List Entry
deriving Repr

/-- Per-receiver step of `detect_structuring`: scan the receiver's
in-band rows in timestamp order, fire at the first window with
`≥ min_senders` distinct senders, record the ring, consult the
legitimacy classifier, mark unless legitimate and stop. -/
def structStep (rows inBandSorted : List Tx) (ceiling lower : ℚ)
    (minSenders : ℕ) (windowHours : ℤ) (receiver : String)
    (st : StructSt) : StructSt :=
  let grp := inBandSorted.filter (fun t => t.receiver == receiver)
  match grp.find? (fun t =>
      minSenders ≤ nunique ((windowTxnsOf grp t.ts windowHours).map (·.sender))) with
  | none => st
  | some t =>
    let windowTxns := windowTxnsOf grp t.ts windowHours
    let uniqueSenders := nunique (windowTxns.map (·.sender))
    let counter := st.counter + 1
    let ring_id := "STRUCT-" ++ pad4 counter
    let info : StructRing :=
      { ring_id := ring_id, account_id := receiver,
        pattern := "STRUCTURING",
        counterparty_count := uniqueSenders,
        window_start := t.ts, window_end := t.ts + windowHours,
        tx_ids := windowTxns.map (·.txid),
        total_amount := round2 ((windowTxns.map (·.amount)).sum),
        amount_ceiling := ceiling }
    let results := st.results ++ [info]
    let reg :=
      if isLikelyLegitimate rows receiver then st.reg
      else
        markSuspicious st.reg receiver
          ("Structuring pattern: " ++ decString uniqueSenders
            ++ " senders with amounts $" ++ fmtMoney lower ++ "–$"
            ++ fmtMoney ceiling ++ " within " ++ intStr windowHours ++ "h")
          ring_id (structInfoExtra info)
    { counter := counter, results := results, reg := reg }

/-- `detect_structuring(amount_ceiling, band_pct, min_senders,
window_hours)`.  `in_band.groupby("receiver_id")` sorts the group keys
(pandas `groupby` defaults to `sort=True`), so receivers are processed
in lexicographic order; within a group the rows keep the
timestamp-sorted order. -/
def detectStructuring (ceiling bandPct : ℚ) (minSenders : ℕ)
    (windowHours : ℤ) (rows : List Tx) (reg : List Entry) :
    List StructRing × List Entry :=
  let lower := ceiling * (1 - bandPct)
  let inBand := rows.filter (fun t => lower ≤ t.amount && t.amount < ceiling)
  if inBand.isEmpty then ([], reg)
  else
    let inBandSorted := stableSortBy (fun a b => a.ts ≤ b.ts) inBand
    let receivers := sortStrings (dedupFirst (inBand.map (·.receiver)))
    let st := receivers.foldl
      (fun st r =>
        structStep rows inBandSorted ceiling lower minSenders windowHours r st)
      ⟨0, [], reg⟩
    (st.results, st.reg)

/-! ## Scorer (`scorer.SuspicionScorer`)

`_build_tx_counts` accumulates, per account, its appearances in the
sender column plus the receiver column — the same totals as
`txTotalCount`, which is therefore reused. -/

/-- `SuspicionScorer._build_velocity_flags` for one account: does any of
its rows start a 24-hour window containing `≥ velocity_threshold` of its
rows?  (The source sorts the frame by timestamp first; window membership
counts depend only on timestamp values.) -/
def velocityHit (rows : List Tx) (vth : ℕ) (a : String) : Bool :=
  let sub := (stableSortBy (fun x y => x.ts ≤ y.ts) rows).filter
    (fun t => t.sender == a || t.receiver == a)
  sub.any (fun t =>
    vth ≤ (sub.filter (fun u => t.ts ≤ u.ts && u.ts ≤ t.ts + 24)).length)

/-- Python `s.rstrip("h)")`. -/
def stripHParen (s : String) : String :=
  String.mk ((s.data.reverse.dropWhile (fun c => c == 'h' || c == ')')).reverse)

/-- The characters after the last occurrence of `pat`, if `pat` occurs.
`s.split(pat)[-1]` is the text after the last occurrence that Python's
left-to-right non-overlapping scan finds; for a pattern that cannot
overlap itself — such as `"in "` — that is the rightmost occurrence. -/
def afterLastAux (pat : List Char) : List Char → Option (List Char)
  | [] => none
  | c :: rest =>
    match afterLastAux pat rest with
    | some r => some r
    | none =>
      if listLeads pat (c :: rest) then some ((c :: rest).drop pat.length)
      else none

/-- Python `s.split(pat)[-1]` (see `afterLastAux`). -/
def afterLastSplit (s pat : String) : String :=
  match afterLastAux pat.data s.data with
  | some r => String.mk r
  | none => s

/-- The numeric value of a digit character, if it is one. -/
def digitVal? (c : Char) : Option ℕ :=
  if '0' ≤ c && c ≤ '9' then some (c.toNat - 48) else none

/-- Accumulating decimal parse of a digit list; `none` on any
non-digit. -/
def parseDigitsAux : List Char → ℕ → Option ℕ
  | [], acc => some acc
  | c :: cs, acc =>
    match digitVal? c with
    | some d => parseDigitsAux cs (10 * acc + d)
    | none => none

/-- Python `int(s)` on the strings produced here: an optional sign
followed by at least one digit (surrounding whitespace and `_`
separators never occur in the parsed reason fragments). -/
def parseInt? (s : String) : Option ℤ :=
  match s.data with
  | [] => none
  | '-' :: rest =>
    if rest.isEmpty then none
    else (parseDigitsAux rest 0).map (fun n => -(n : ℤ))
  | '+' :: rest =>
    if rest.isEmpty then none
    else (parseDigitsAux rest 0).map (fun n => (n : ℤ))
  | l => (parseDigitsAux l 0).map (fun n => (n : ℤ))

/-- `SuspicionScorer._parse_fan_window(reasons)`: for the first reason
containing `"FAN-"`, `"in "` and `"h)"`, take the text after the last
`"in "`, strip trailing `h`/`)` and parse an integer; parse failures
fall through to the next reason. -/
def parseFanWindow (reasons : List String) : Option ℤ :=
  reasons.findSome? (fun r =>
    if strContains r "FAN-" && strContains r "in " && strContains r "h)" then
      parseInt? (stripHParen (afterLastSplit r "in "))
    else none)

/-- `SuspicionScorer.score_account(account_id)`: `None` for accounts with
50+ total transactions, `0.0` for unflagged accounts, otherwise the flat
additive score — +40 cycle, +30 fan (×1.3 when the parsed window is
`≤ 72`), +20 shell, +10 velocity — capped at 100 and rounded to four
decimals. -/
def scoreAccount (rows : List Tx) (reg : List Entry) (vth : ℕ)
    (account_id : String) : Option ℚ :=
  let total := txTotalCount rows account_id
  if 50 ≤ total then none
  else
    match regEntry? reg account_id with
    | none => some 0
    | some info =>
      let reasons := info.reasons
      let s1 : ℚ := if reasons.any (fun r => strContains (strLower r) "cycle")
                    then 40 else 0
      let s2 : ℚ :=
        if reasons.any (fun r => strContains (strLower r) "fan-") then
          match parseFanWindow reasons with
          | some h => if h ≤ 72 then 30 * (13 / 10) else 30
          | none => 30
        else 0
      let s3 : ℚ := if reasons.any (fun r => strContains (strLower r) "shell")
                    then 20 else 0
      let s4 : ℚ := if velocityHit rows vth account_id then 10 else 0
      some (round4 (min (s1 + s2 + s3 + s4) 100))

structure ScoreRec where
  account_id : String
  ring_id : Option String
  score : Option ℚ
  skipped : Bool
  has_cycle : Bool
  has_fan : Bool
  has_shell : Bool
  has_velocity : Bool
  total_txns : ℕ
  reasons : String
deriving DecidableEq, Repr

/-- One output row of `SuspicionScorer.score_all` for a registry entry. -/
def scoreRecOf (rows : List Tx) (reg : List Entry) (vth : ℕ)
    (info : Entry) : ScoreRec :=
  let total := txTotalCount rows info.account_id
  let skipped := 50 ≤ total
  { account_id := info.account_id,
    ring_id := info.ring_id,
    score := if skipped then none else scoreAccount rows reg vth info.account_id,
    skipped := skipped,
    has_cycle := info.reasons.any (fun r => strContains (strLower r) "cycle"),
    has_fan := info.reasons.any (fun r => strContains (strLower r) "fan-"),
    has_shell := info.reasons.any (fun r => strContains (strLower r) "shell"),
    has_velocity := velocityHit rows vth info.account_id,
    total_txns := total,
    reasons := String.intercalate "; " info.reasons }

/-- The sort key of `score_all`:
`sort_values(["skipped","score"], ascending=[True,False])` — non-skipped
rows first, descending score, absent scores (pandas `NaN`) last; pandas'
sort here is stable on the concrete inputs used below (each non-skipped
group has pairwise distinct keys whenever the order is inspected). -/
def scoreAllLe (a b : ScoreRec) : Bool :=
  if a.skipped != b.skipped then a.skipped == false
  else
    match a.score, b.score with
    | some x, some y => y ≤ x
    | some _, none => true
    | none, some _ => false
    | none, none => true

/-- `SuspicionScorer.score_all()`: one record per registry entry, sorted
as above. -/
def scoreAll (rows : List Tx) (reg : List Entry) (vth : ℕ) :
    List ScoreRec :=
  stableSortBy scoreAllLe (reg.map (scoreRecOf rows reg vth))

/-! ## End-to-end run (`main.analyze` with `ANALYSE_KWARGS` /
`SCORER_KWARGS`) -/

structure AnalysisOut where
  cycles : List CycleRing
  fans : List FanRing
  shells : List ShellRing
  structs : List StructRing
  reg : List Entry
deriving Repr

/-- The four detector calls of `main.analyze`, in source order, threading
the engine's suspicion registry: cycles (3–5), fan (10 in 72h), shell
(max_txns 5, min_hops 3), structuring (10,000, 8%, 5 senders, 168h). -/
def runDetectors (rows : List Tx) : AnalysisOut :=
  let c := detectCycles 3 5 rows []
  let f := detectFanInOut 10 72 rows c.2
  let s := detectShellNetworks 5 3 rows f.2
  let t := detectStructuring 10000 (8 / 100) 5 168 rows s.2
  ⟨c.1, f.1, s.1, t.1, t.2⟩

/-- The `suspicious_accounts` content of the response
(`scorer.score_all()` with `velocity_threshold=5`; `_build_response`
copies the same fields row by row). -/
def suspiciousAccounts (rows : List Tx) : List ScoreRec :=
  scoreAll rows (runDetectors rows).reg 5

/-- The keys of the `fraud_rings` map, in the insertion order of
`_build_response` (cycles, fans, shells, structuring). -/
def fraudRingIds (out : AnalysisOut) : List String :=
  out.cycles.map (·.ring_id) ++ out.fans.map (·.ring_id)
    ++ out.shells.map (·.ring_id) ++ out.structs.map (·.ring_id)

/-- The comparison order of the determinism property: sort
`suspicious_accounts` by (skipped asc, score desc, account_id asc). -/
def compareKeyLe (a b : ScoreRec) : Bool :=
  if a.skipped != b.skipped then a.skipped == false
  else
    match a.score, b.score with
    | some x, some y => if x != y then y ≤ x else strLeB a.account_id b.account_id
    | some _, none => true
    | none, some _ => false
    | none, none => strLeB a.account_id b.account_id

/-- `suspicious_accounts`, normalised by the comparison sort above. -/
def sortedSuspicious (rows : List Tx) : List ScoreRec :=
  stableSortBy compareKeyLe (suspiciousAccounts rows)

/-! ## Concrete input tables used by the theorems -/

def mkTx (id s r : String) (amt : ℚ) (t : ℤ) : Tx :=
  { txid := id, sender := s, receiver := r, amount := amt, ts := t }

/-- A fan-in hub: 15 distinct senders pay `HUB` within 30 hours. -/
def rowsFanHub : List Tx :=
  (List.range 15).map (fun i =>
    mkTx ("T" ++ decString (i + 1)) ("S" ++ decString (i + 1)) "HUB" 1000 (2 * i))

/-- A $6,000 cycle `HUB → X → Y → HUB` followed by a fan-in of ten more
senders into `HUB`: `HUB` is marked first by the cycle detector, then by
the fan detector. -/
def rowsCycleFan : List Tx :=
  [mkTx "T1" "HUB" "X" 2000 1, mkTx "T2" "X" "Y" 2000 2,
   mkTx "T3" "Y" "HUB" 2000 3]
    ++ (List.range 10).map (fun i =>
        mkTx ("T" ++ decString (i + 4)) ("S" ++ decString (i + 1)) "HUB" 500 (4 + i))

/-- A three-node shell chain `S1 → S2 → S3` of low-activity accounts. -/
def rowsShell3 : List Tx :=
  [mkTx "T1" "S1" "S2" 500 1, mkTx "T2" "S2" "S3" 400 2]

/-- Two disjoint high-value triangles, `A → B → C → A` first. -/
def rowsTriA : List Tx :=
  [mkTx "T1" "A" "B" 2000 1, mkTx "T2" "B" "C" 2000 2, mkTx "T3" "C" "A" 2000 3,
   mkTx "T4" "D" "E" 3000 4, mkTx "T5" "E" "F" 3000 5, mkTx "T6" "F" "D" 3000 6]

/-- The same six rows with the two triangles swapped. -/
def rowsTriB : List Tx :=
  [mkTx "T4" "D" "E" 3000 4, mkTx "T5" "E" "F" 3000 5, mkTx "T6" "F" "D" 3000 6,
   mkTx "T1" "A" "B" 2000 1, mkTx "T2" "B" "C" 2000 2, mkTx "T3" "C" "A" 2000 3]

/-- A triangle of three $300 transfers (total $900 < $1,000). -/
def rowsSmallCycle : List Tx :=
  [mkTx "T1" "A" "B" 300 1, mkTx "T2" "B" "C" 300 2, mkTx "T3" "C" "A" 300 3]

/-- A $900 triangle followed by a $6,000 triangle: the first consumes
`CYCLE-0001` and is discarded, the second is recorded as `CYCLE-0002`. -/
def rowsSkipGap : List Tx :=
  [mkTx "T1" "A" "B" 300 1, mkTx "T2" "B" "C" 300 2, mkTx "T3" "C" "A" 300 3,
   mkTx "T4" "D" "E" 2000 4, mkTx "T5" "E" "F" 2000 5, mkTx "T6" "F" "D" 2000 6]

/-- One fan-in account `H` and one fan-out account `G` in the same run. -/
def rowsFanBoth : List Tx :=
  (List.range 10).map (fun i =>
    mkTx ("T" ++ decString (i + 1)) ("R" ++ decString (i + 1)) "H" 100 i)
  ++ (List.range 10).map (fun i =>
    mkTx ("T" ++ decString (i + 11)) "G" ("W" ++ decString (i + 1)) 100 (20 + i))

/-- A payroll pattern: `PAYER` pays the same ten employees twice, so the
legitimacy classifier's rule 1 fires while the fan-out check also
fires. -/
def rowsPayroll : List Tx :=
  (List.range 10).map (fun i =>
    mkTx ("T" ++ decString (i + 1)) "PAYER" ("E" ++ decString (i + 1)) 1000 i)
  ++ (List.range 10).map (fun i =>
    mkTx ("T" ++ decString (i + 11)) "PAYER" ("E" ++ decString (i + 1)) 1000 (30 + i))

/-- A structuring pattern from five repeating senders: the structuring
window fires while the merchant rule classifies `RCV` as legitimate. -/
def rowsStructLegit : List Tx :=
  (List.range 5).map (fun i =>
    mkTx ("T" ++ decString (i + 1)) ("S" ++ decString (i + 1)) "RCV" 9500 i)
  ++ (List.range 5).map (fun i =>
    mkTx ("T" ++ decString (i + 6)) ("S" ++ decString (i + 1)) "RCV" 9500 (10 + i))

/-- The invariant carried through `detect_cycles`: every recorded ring
stores the rounded walk total of a cycle whose (unrounded) total is at
least $1,000, and every registry account either predates the detector or
lies on some recorded ring's cycle. -/
def CycInv (g : List Edge) (reg₀ : List Entry) (st : CycSt) : Prop :=
  (∀ r ∈ st.results, r.total_amount = round2 (cycleTotal g r.cycle)
    ∧ 1000 ≤ cycleTotal g r.cycle)
  ∧ ∀ b ∈ st.reg.map (·.account_id),
      b ∈ reg₀.map (·.account_id) ∨ ∃ r ∈ st.results, b ∈ r.cycle

/-- The amended spec's scoring formula, written from its words rather
than from `scorer.py`: flat components — 40 for cycle participation, 30
for a fan pattern multiplied by 1.3 when the parsed window is at most 72
hours (30 when no window parses), 20 for shell membership, 10 for the
velocity flag — summed, capped at 100 and rounded to four decimals;
an account absent from the registry scores 0. -/
def specFlatScore (rows : List Tx) (reg : List Entry) (vth : ℕ)
    (account_id : String) : ℚ :=
  match regEntry? reg account_id with
  | none => 0
  | some info =>
    let reasons := info.reasons
    let cycleComp : ℚ :=
      if reasons.any (fun r => strContains (strLower r) "cycle") then 40 else 0
    let fanComp : ℚ :=
      if reasons.any (fun r => strContains (strLower r) "fan-") then
        match parseFanWindow reasons with
        | some h => if h ≤ 72 then 30 * (13 / 10) else 30
        | none => 30
      else 0
    let shellComp : ℚ :=
      if reasons.any (fun r => strContains (strLower r) "shell") then 20 else 0
    let velComp : ℚ := if velocityHit rows vth account_id then 10 else 0
    round4 (min (cycleComp + fanComp + shellComp + velComp) 100)

/-- The ring-id-free content of a scorer record: every field except
`ring_id` and the joined `reasons` text (both embed ring numbering),
which are blanked. -/
def scoreContent (rec : ScoreRec) : ScoreRec :=
  { rec with ring_id := none, reasons := "" }

/-! ## Support lemmas -/

theorem foldl_inv {α σ : Type} (P : σ → Prop) (step : σ → α → σ)
    (l : List α) (s : σ) (h0 : P s)
    (hstep : ∀ s a, a ∈ l → P s → P (step s a)) : P (l.foldl step s) := by
  induction l generalizing s with
  | nil => exact h0
  | cons a t ih =>
    exact ih _ (hstep _ _ (by simp) h0)
      (fun s' b hb hP => hstep s' b (by simp [hb]) hP)

theorem mem_stableInsert {α : Type} (le : α → α → Bool) (x : α)
    (l : List α) (y : α) : y ∈ stableInsert le x l ↔ y = x ∨ y ∈ l := by
  induction l with
  | nil => simp [stableInsert]
  | cons h t ih =>
    rw [stableInsert]
    split
    · simp only [List.mem_cons, ih]
      tauto
    · simp only [List.mem_cons]

theorem mem_stableSortBy {α : Type} (le : α → α → Bool) (l : List α)
    (y : α) : y ∈ stableSortBy le l ↔ y ∈ l := by
  have key : ∀ (l' : List α) (acc : List α),
      y ∈ l'.foldl (fun acc x => stableInsert le x acc) acc
        ↔ y ∈ acc ∨ y ∈ l' := by
    intro l'
    induction l' with
    | nil => simp
    | cons a t ih =>
      intro acc
      rw [List.foldl_cons, ih, mem_stableInsert]
      simp only [List.mem_cons]
      tauto
  rw [stableSortBy, key]
  simp

theorem entrySetKey_account_id (e : Entry) (k : String) (v : Val)
    (hk : k = "account_id" → v = Val.s e.account_id) :
    (entrySetKey e k v).account_id = e.account_id := by
  by_cases hacc : k = "account_id"
  · subst hacc
    have hv := hk rfl
    subst hv
    simp [entrySetKey]
  · by_cases hr : k = "ring_id"
    · subst hr
      simp [entrySetKey]
    · by_cases hs : k = "reasons"
      · subst hs
        simp [entrySetKey]
      · simp [entrySetKey, beq_iff_eq, hacc, hr, hs]

theorem entryUpdate_account_id (e : Entry) (kvs : List (String × Val))
    (hk : ∀ v, ("account_id", v) ∈ kvs → v = Val.s e.account_id) :
    (entryUpdate e kvs).account_id = e.account_id := by
  induction kvs generalizing e with
  | nil => rfl
  | cons kv t ih =>
    rw [entryUpdate, List.foldl_cons]
    have h1 : (entrySetKey e kv.1 kv.2).account_id = e.account_id := by
      apply entrySetKey_account_id
      intro hkk
      exact hk kv.2 (by rw [← hkk]; exact List.mem_cons_self _ _)
    have := ih (entrySetKey e kv.1 kv.2)
      (fun v hv => by rw [h1]; exact hk v (List.mem_cons_of_mem _ hv))
    rw [entryUpdate] at this
    rw [this, h1]

/-- Marking an account only touches that account's entry (or appends it):
the list of account ids grows by at most `a`, provided the `extra`
payload does not rename the entry (every detector's payload satisfies
this: it either has no `account_id` key or carries the marked account's
own id). -/
theorem markEntry_account_id (e : Entry) (reason ring_id : String)
    (extra : List (String × Val))
    (hex : ∀ v, ("account_id", v) ∈ extra → v = Val.s e.account_id) :
    (markEntry e reason ring_id extra).account_id = e.account_id := by
  rw [markEntry]
  set e1 := { e with reasons := e.reasons ++ [reason] } with he1
  set e2 := if e1.ring_id = none then { e1 with ring_id := some ring_id }
            else e1 with he2
  have h2acc : e2.account_id = e.account_id := by
    rw [he2]; split <;> rfl
  rw [entryUpdate_account_id]
  · exact h2acc
  · intro v hv
    rw [h2acc]
    exact hex v hv

/-- Marking an account only touches that account's entry (or appends it):
the list of account ids grows by at most `a`, provided the `extra`
payload does not rename the entry (every detector's payload satisfies
this: it either has no `account_id` key or carries the marked account's
own id). -/
theorem markSuspicious_account_ids (reg : List Entry)
    (a reason ring_id : String) (extra : List (String × Val))
    (hex : ∀ v, ("account_id", v) ∈ extra → v = Val.s a) :
    ∀ b, b ∈ (markSuspicious reg a reason ring_id extra).map (·.account_id)
      → b ∈ reg.map (·.account_id) ∨ b = a := by
  intro b hb
  rw [markSuspicious, List.map_map] at hb
  obtain ⟨e0, he0, he0eq⟩ := List.mem_map.1 hb
  simp only [Function.comp_apply] at he0eq
  have he0mem : e0 ∈ reg ∨ e0.account_id = a := by
    split at he0
    · exact Or.inl he0
    · rcases List.mem_append.1 he0 with h | h
      · exact Or.inl h
      · right
        rw [List.mem_singleton] at h
        rw [h]
  by_cases hcase : e0.account_id = a
  · right
    rw [← he0eq, if_pos (show (e0.account_id == a) = true by simpa using hcase)]
    rw [markEntry_account_id]
    · exact hcase
    · intro v hv
      rw [hcase]
      exact hex v hv
  · left
    rw [← he0eq, if_neg (show ¬ (e0.account_id == a) = true by simpa using hcase)]
    rcases he0mem with h | h
    · exact List.mem_map.2 ⟨e0, h, rfl⟩
    · exact absurd h hcase

theorem round_nonneg_of_nonneg {x : ℚ} (h : 0 ≤ x) : (0 : ℤ) ≤ round x := by
  rw [round_eq]
  have : (0 : ℚ) ≤ x + 1 / 2 := by linarith
  have h0 : ⌊(0 : ℚ)⌋ ≤ ⌊x + 1 / 2⌋ := Int.floor_mono (by linarith)
  simpa using h0

theorem round_le_of_le {x y : ℚ} (h : x ≤ y) : round x ≤ round y := by
  rw [round_eq, round_eq]
  exact Int.floor_mono (by linarith)

theorem round4_bounds {x : ℚ} (h0 : 0 ≤ x) (h100 : x ≤ 100) :
    0 ≤ round4 x ∧ round4 x ≤ 100 := by
  have hlo : (0 : ℤ) ≤ round (x * 10000) :=
    round_nonneg_of_nonneg (by positivity)
  have hhi : round (x * 10000) ≤ 1000000 := by
    have h1 : round (x * 10000) ≤ round ((1000000 : ℚ)) :=
      round_le_of_le (by linarith)
    have h2 : round ((1000000 : ℚ)) = 1000000 := by
      simp
    rw [h2] at h1
    exact h1
  constructor
  · rw [round4]
    positivity
  · rw [round4]
    rw [div_le_iff₀ (by norm_num)]
    calc ((round (x * 10000) : ℤ) : ℚ) ≤ ((1000000 : ℤ) : ℚ) := by
          exact_mod_cast hhi
      _ = 100 * 10000 := by norm_num

/-- The value produced by `score_account` for a sub-50-transaction
account is a real score in `[0, 100]`. -/
theorem scoreAccount_bounds (rows : List Tx) (reg : List Entry) (vth : ℕ)
    (a : String) (s : ℚ) (h : scoreAccount rows reg vth a = some s) :
    0 ≤ s ∧ s ≤ 100 := by
  rw [scoreAccount] at h
  split at h
  · exact absurd h (by simp)
  · rename_i hlt
    cases hreg : regEntry? reg a with
    | none =>
      rw [hreg] at h
      simp only [Option.some.injEq] at h
      subst h
      norm_num
    | some info =>
      rw [hreg] at h
      simp only [Option.some.injEq] at h
      subst h
      set s1 : ℚ := if info.reasons.any
        (fun r => strContains (strLower r) "cycle") then 40 else 0 with hs1
      set s2 : ℚ := if info.reasons.any
          (fun r => strContains (strLower r) "fan-") then
          match parseFanWindow info.reasons with
          | some h => if h ≤ 72 then 30 * (13 / 10) else 30
          | none => 30
        else 0 with hs2
      set s3 : ℚ := if info.reasons.any
        (fun r => strContains (strLower r) "shell") then 20 else 0 with hs3
      set s4 : ℚ := if velocityHit rows vth a then 10 else 0 with hs4
      have h1 : 0 ≤ s1 := by rw [hs1]; split <;> norm_num
      have h2 : 0 ≤ s2 := by
        rw [hs2]
        split
        · split
          · split <;> norm_num
          · norm_num
        · norm_num
      have h3 : 0 ≤ s3 := by rw [hs3]; split <;> norm_num
      have h4 : 0 ≤ s4 := by rw [hs4]; split <;> norm_num
      have hmin0 : 0 ≤ min (s1 + s2 + s3 + s4) 100 :=
        le_min (by linarith) (by norm_num)
      have hmin100 : min (s1 + s2 + s3 + s4) 100 ≤ 100 := min_le_right _ _
      exact round4_bounds hmin0 hmin100

theorem find?_append_singleton_of_neg {α : Type} (l : List α) (x : α)
    (p : α → Bool) (hx : ¬ p x = true) :
    (l ++ [x]).find? p = l.find? p := by
  induction l with
  | nil => simpa using @List.find?_cons_of_neg α p x [] hx
  | cons e t ih =>
    by_cases hp : p e = true
    · rw [List.cons_append, @List.find?_cons_of_pos α p e _ hp,
        @List.find?_cons_of_pos α p e _ hp]
    · rw [List.cons_append, @List.find?_cons_of_neg α p e _ hp,
        @List.find?_cons_of_neg α p e _ hp]
      exact ih

theorem find?_map_markEntry (a reason ring_id b : String)
    (extra : List (String × Val))
    (hex : ∀ v, ("account_id", v) ∈ extra → v = Val.s a) (hb : b ≠ a) :
    ∀ t : List Entry,
      List.find? (fun e => e.account_id == b)
        (t.map (fun e =>
          if (e.account_id == a) = true then markEntry e reason ring_id extra
          else e))
      = List.find? (fun e => e.account_id == b) t := by
  intro t
  induction t with
  | nil => rfl
  | cons e t ih =>
    rw [List.map_cons]
    by_cases hcase : e.account_id = a
    · rw [if_pos (by simpa using hcase)]
      have hmark : (markEntry e reason ring_id extra).account_id
          = e.account_id :=
        markEntry_account_id e _ _ _
          (fun v hv => by rw [hcase]; exact hex v hv)
      have hne1 : ¬ ((markEntry e reason ring_id extra).account_id == b)
          = true := by
        rw [hmark, hcase]
        simp only [beq_iff_eq]
        exact fun hc => hb hc.symm
      have hne2 : ¬ (e.account_id == b) = true := by
        rw [hcase]
        simp only [beq_iff_eq]
        exact fun hc => hb hc.symm
      rw [@List.find?_cons_of_neg Entry (fun e => e.account_id == b)
          (markEntry e reason ring_id extra) _ hne1,
        @List.find?_cons_of_neg Entry (fun e => e.account_id == b) e _ hne2]
      exact ih
    · rw [if_neg (by simpa using hcase)]
      by_cases hp : (e.account_id == b) = true
      · rw [@List.find?_cons_of_pos Entry (fun e => e.account_id == b) e _ hp,
          @List.find?_cons_of_pos Entry (fun e => e.account_id == b) e _ hp]
      · rw [@List.find?_cons_of_neg Entry (fun e => e.account_id == b) e _ hp,
          @List.find?_cons_of_neg Entry (fun e => e.account_id == b) e _ hp]
        exact ih

/-- Marking account `a` leaves the entry of any other account exactly as
it was. -/
theorem regEntry?_markSuspicious_ne (reg : List Entry)
    (a reason ring_id : String) (extra : List (String × Val))
    (hex : ∀ v, ("account_id", v) ∈ extra → v = Val.s a)
    (b : String) (hb : b ≠ a) :
    regEntry? (markSuspicious reg a reason ring_id extra) b
      = regEntry? reg b := by
  rw [markSuspicious, regEntry?, regEntry?]
  split
  · exact find?_map_markEntry a reason ring_id b extra hex hb reg
  · rw [List.map_append]
    have hmapped := find?_map_markEntry a reason ring_id b extra hex hb reg
    have hnew : ¬ ((markEntry (Entry.mk a (some ring_id) [] [])
        reason ring_id extra).account_id == b) = true := by
      rw [markEntry_account_id _ _ _ _ (fun v hv => hex v hv)]
      simp only [beq_iff_eq]
      exact fun hc => hb hc.symm
    have hlist : (([Entry.mk a (some ring_id) [] []] : List Entry).map
        (fun e =>
          if (e.account_id == a) = true then markEntry e reason ring_id extra
          else e))
        = [markEntry (Entry.mk a (some ring_id) [] []) reason ring_id extra] := by
      rw [List.map_cons, List.map_nil, if_pos (by simp)]
    rw [hlist, @find?_append_singleton_of_neg Entry _ _
      (fun e => e.account_id == b) hnew]
    exact hmapped

/-! ## Ring-id bookkeeping

Each detector builds its ring ids as `<KIND>-` ++ `pad4 counter` from a
strictly increasing counter; the invariants below track this and yield
global uniqueness of ring ids. -/

theorem string_data_inj {s t : String} (h : s.data = t.data) : s = t := by
  cases s
  cases t
  exact congrArg String.mk h

theorem strAppend_left_cancel {p x y : String} (h : p ++ x = p ++ y) :
    x = y := by
  have hd : p.data ++ x.data = p.data ++ y.data := by
    have := congrArg String.data h
    simpa [String.data_append] using this
  exact string_data_inj (List.append_cancel_left hd)

theorem strAppend_ne (p q x y : String) (i : ℕ)
    (h1 : i < p.data.length) (h2 : i < q.data.length)
    (h3 : p.data[i]? ≠ q.data[i]?) : p ++ x ≠ q ++ y := by
  intro h
  have hd : p.data ++ x.data = q.data ++ y.data := by
    have := congrArg String.data h
    simpa [String.data_append] using this
  apply h3
  have e1 : (p.data ++ x.data)[i]? = p.data[i]? := by
    rw [List.getElem?_append, if_pos h1]
  have e2 : (q.data ++ y.data)[i]? = q.data[i]? := by
    rw [List.getElem?_append, if_pos h2]
  rw [← e1, hd, e2]

/-- The id list of one single-prefix detector: some strictly increasing
numbers `ks`, all bounded by the current counter, rendered as
`pre ++ pad4 k`. -/
def RingIdInv (pre : String) (ids : List String) (c : ℕ) : Prop :=
  ∃ ks : List ℕ, ids = ks.map (fun k => pre ++ pad4 k)
    ∧ ks.Chain' (· < ·) ∧ ∀ k ∈ ks, k ≤ c

theorem ringIdInv_nil (pre : String) (c : ℕ) : RingIdInv pre [] c :=
  ⟨[], rfl, List.chain'_nil, by simp⟩

theorem ringIdInv_mono {pre : String} {ids : List String} {c c' : ℕ}
    (hc : c ≤ c') (h : RingIdInv pre ids c) : RingIdInv pre ids c' := by
  obtain ⟨ks, h1, h2, h3⟩ := h
  exact ⟨ks, h1, h2, fun k hk => le_trans (h3 k hk) hc⟩

theorem ringIdInv_append {pre : String} {ids : List String} {c : ℕ}
    (h : RingIdInv pre ids c) :
    RingIdInv pre (ids ++ [pre ++ pad4 (c + 1)]) (c + 1) := by
  obtain ⟨ks, h1, h2, h3⟩ := h
  refine ⟨ks ++ [c + 1], ?_, ?_, ?_⟩
  · rw [h1, List.map_append]
    rfl
  · rw [List.chain'_append]
    refine ⟨h2, List.chain'_singleton _, ?_⟩
    intro x hx y hy
    simp only [List.head?_cons, Option.mem_def, Option.some.injEq] at hy
    subst hy
    have hxk : x ∈ ks := List.mem_of_mem_getLast? hx
    exact Nat.lt_succ_of_le (h3 x hxk)
  · intro k hk
    rcases List.mem_append.1 hk with hk | hk
    · exact le_trans (h3 k hk) (Nat.le_succ _)
    · simp only [List.mem_singleton] at hk
      subst hk
      exact le_rfl

theorem preMap_injective (pre : String) :
    Function.Injective (fun k => pre ++ pad4 k) := by
  intro a b hab
  exact pad4_injective (strAppend_left_cancel hab)

theorem ringIdInv_nodup {pre : String} {ids : List String} {c : ℕ}
    (h : RingIdInv pre ids c) : ids.Nodup := by
  obtain ⟨ks, h1, h2, _⟩ := h
  subst h1
  apply List.Nodup.map (preMap_injective pre)
  have hp : ks.Pairwise (· < ·) := List.chain'_iff_pairwise.1 h2
  exact List.Pairwise.imp Nat.ne_of_lt hp

theorem mem_ringIdInv {pre : String} {ids : List String} {c : ℕ}
    (h : RingIdInv pre ids c) {x : String} (hx : x ∈ ids) :
    ∃ k, x = pre ++ pad4 k := by
  obtain ⟨ks, h1, _, _⟩ := h
  subst h1
  obtain ⟨k, _, hk⟩ := List.mem_map.1 hx
  exact ⟨k, hk.symm⟩

/-- The id list of the fan detector: patterns from
{`FAN-IN`, `FAN-OUT`} with one shared, strictly increasing counter. -/
def FanIdInv (ids : List String) (c : ℕ) : Prop :=
  ∃ pks : List (String × ℕ),
    ids = pks.map (fun pk => pk.1 ++ "-" ++ pad4 pk.2)
    ∧ (pks.map Prod.snd).Chain' (· < ·)
    ∧ ∀ pk ∈ pks, (pk.1 = "FAN-IN" ∨ pk.1 = "FAN-OUT") ∧ pk.2 ≤ c

theorem fanIdInv_nil (c : ℕ) : FanIdInv [] c :=
  ⟨[], rfl, List.chain'_nil, by simp⟩

theorem fanIdInv_mono {ids : List String} {c c' : ℕ} (hc : c ≤ c')
    (h : FanIdInv ids c) : FanIdInv ids c' := by
  obtain ⟨pks, h1, h2, h3⟩ := h
  exact ⟨pks, h1, h2, fun pk hpk =>
    ⟨(h3 pk hpk).1, le_trans (h3 pk hpk).2 hc⟩⟩

theorem fanIdInv_append {ids : List String} {c : ℕ} {p : String}
    (hp : p = "FAN-IN" ∨ p = "FAN-OUT") (h : FanIdInv ids c) :
    FanIdInv (ids ++ [p ++ "-" ++ pad4 (c + 1)]) (c + 1) := by
  obtain ⟨pks, h1, h2, h3⟩ := h
  refine ⟨pks ++ [(p, c + 1)], ?_, ?_, ?_⟩
  · rw [h1, List.map_append]
    rfl
  · rw [List.map_append, List.chain'_append]
    refine ⟨h2, by simp [List.chain'_singleton], ?_⟩
    intro x hx y hy
    simp only [List.map_cons, List.map_nil, List.head?_cons, Option.mem_def,
      Option.some.injEq] at hy
    subst hy
    have hxk : x ∈ pks.map Prod.snd := List.mem_of_mem_getLast? hx
    obtain ⟨pk, hpk, hpkx⟩ := List.mem_map.1 hxk
    subst hpkx
    exact Nat.lt_succ_of_le (h3 pk hpk).2
  · intro pk hpk
    rcases List.mem_append.1 hpk with hk | hk
    · exact ⟨(h3 pk hk).1, le_trans (h3 pk hk).2 (Nat.le_succ _)⟩
    · simp only [List.mem_singleton] at hk
      subst hk
      exact ⟨hp, le_rfl⟩

/-- A discriminator separating the five ring-id prefixes by their first
characters; constant on everything a given detector can emit. -/
def idKind (s : String) : ℕ :=
  match s.data with
  | 'C' :: _ => 0
  | 'F' :: 'A' :: 'N' :: '-' :: 'I' :: _ => 1
  | 'F' :: _ => 2
  | 'S' :: 'H' :: _ => 3
  | _ => 4

theorem idKind_cycle (x : String) : idKind ("CYCLE-" ++ x) = 0 := rfl

theorem idKind_fanIn (x : String) : idKind ("FAN-IN" ++ "-" ++ x) = 1 := rfl

theorem idKind_fanOut (x : String) : idKind ("FAN-OUT" ++ "-" ++ x) = 2 := rfl

theorem idKind_shell (x : String) : idKind ("SHELL-" ++ x) = 3 := rfl

theorem idKind_struct (x : String) : idKind ("STRUCT-" ++ x) = 4 := rfl

theorem mem_fanIdInv {ids : List String} {c : ℕ} (h : FanIdInv ids c)
    {x : String} (hx : x ∈ ids) :
    (∃ k, x = "FAN-IN" ++ "-" ++ pad4 k)
      ∨ ∃ k, x = "FAN-OUT" ++ "-" ++ pad4 k := by
  obtain ⟨pks, h1, _, h3⟩ := h
  subst h1
  obtain ⟨pk, hpk, hpkx⟩ := List.mem_map.1 hx
  rcases (h3 pk hpk).1 with hp | hp
  · left
    exact ⟨pk.2, by rw [← hpkx, hp]⟩
  · right
    exact ⟨pk.2, by rw [← hpkx, hp]⟩

theorem fanIdInv_nodup {ids : List String} {c : ℕ}
    (h : FanIdInv ids c) : ids.Nodup := by
  obtain ⟨pks, h1, h2, h3⟩ := h
  subst h1
  rw [List.Nodup, List.pairwise_map]
  have hs : (pks.map Prod.snd).Pairwise (· < ·) :=
    List.chain'_iff_pairwise.1 h2
  have hs' : pks.Pairwise (fun a b => a.2 < b.2) := List.pairwise_map.1 hs
  refine List.Pairwise.imp_of_mem ?_ hs'
  intro a b ha hb hlt hc
  rcases (h3 a ha).1 with hpa | hpa <;> rcases (h3 b hb).1 with hpb | hpb
  · rw [hpa, hpb] at hc
    exact Nat.ne_of_lt hlt (pad4_injective (strAppend_left_cancel hc))
  · rw [hpa, hpb] at hc
    have := congrArg idKind hc
    rw [idKind_fanIn, idKind_fanOut] at this
    exact absurd this (by norm_num)
  · rw [hpa, hpb] at hc
    have := congrArg idKind hc
    rw [idKind_fanIn, idKind_fanOut] at this
    exact absurd this (by norm_num)
  · rw [hpa, hpb] at hc
    exact Nat.ne_of_lt hlt (pad4_injective (strAppend_left_cancel hc))

theorem cycleStep_inv (g : List Edge) (minLen maxLen : ℕ) (st : CycSt)
    (cycle : List String)
    (h : RingIdInv "CYCLE-" (st.results.map (·.ring_id)) st.counter) :
    RingIdInv "CYCLE-"
      ((cycleStep g minLen maxLen st cycle).results.map (·.ring_id))
      (cycleStep g minLen maxLen st cycle).counter := by
  rw [cycleStep]
  split
  · dsimp only
    split
    · exact h
    · split
      · exact ringIdInv_mono (Nat.le_succ _) h
      · simp only [List.map_append, List.map_cons, List.map_nil]
        exact ringIdInv_append h
  · exact h

theorem detectCycles_ids (minLen maxLen : ℕ) (rows : List Tx)
    (reg₀ : List Entry) :
    ∃ c, RingIdInv "CYCLE-"
      ((detectCycles minLen maxLen rows reg₀).1.map (·.ring_id)) c := by
  have key : ∀ (sccs : List (List String)) (g : List Edge) (st0 : CycSt),
      RingIdInv "CYCLE-" (st0.results.map (·.ring_id)) st0.counter →
      RingIdInv "CYCLE-"
        ((sccs.foldl (fun st scc =>
          ((simpleCyclesModel g scc).take 10000).foldl
            (cycleStep g minLen maxLen) st) st0).results.map (·.ring_id))
        ((sccs.foldl (fun st scc =>
          ((simpleCyclesModel g scc).take 10000).foldl
            (cycleStep g minLen maxLen) st) st0).counter) := by
    intro sccs g st0 h0
    refine foldl_inv
      (fun (st : CycSt) =>
        RingIdInv "CYCLE-" (st.results.map (·.ring_id)) st.counter)
      _ _ _ h0 ?_
    intro s scc _ hP
    refine foldl_inv
      (fun (st : CycSt) =>
        RingIdInv "CYCLE-" (st.results.map (·.ring_id)) st.counter)
      _ _ _ hP ?_
    intro s' cyc _ hP'
    exact cycleStep_inv g minLen maxLen s' cyc hP'
  exact ⟨_, key ((sccsOf (buildGraph rows)).filter
    (fun scc => decide (minLen ≤ scc.length))) (buildGraph rows)
    ⟨[], [], 0, reg₀⟩ (ringIdInv_nil _ _)⟩

theorem checkAccountFan_inv (rows dfSorted : List Tx) (thr : ℕ) (wh : ℤ)
    (a : String) (asRec : Bool) (st : FanSt)
    (h : FanIdInv (st.results.map (·.ring_id)) st.counter) :
    FanIdInv
      ((checkAccountFan rows dfSorted thr wh a asRec st).results.map (·.ring_id))
      (checkAccountFan rows dfSorted thr wh a asRec st).counter := by
  rw [checkAccountFan]
  split
  · exact h
  · simp only [List.map_append, List.map_cons, List.map_nil]
    exact fanIdInv_append (by cases asRec <;> simp) h

theorem detectFanInOut_ids (thr : ℕ) (wh : ℤ) (rows : List Tx)
    (reg₀ : List Entry) :
    ∃ c, FanIdInv ((detectFanInOut thr wh rows reg₀).1.map (·.ring_id)) c := by
  have key : ∀ (cands : List String) (dfS : List Tx) (asRec : Bool)
      (st0 : FanSt),
      FanIdInv (st0.results.map (·.ring_id)) st0.counter →
      FanIdInv
        ((cands.foldl (fun st a =>
          checkAccountFan rows dfS thr wh a asRec st) st0).results.map (·.ring_id))
        ((cands.foldl (fun st a =>
          checkAccountFan rows dfS thr wh a asRec st) st0).counter) := by
    intro cands dfS asRec st0 h0
    refine foldl_inv
      (fun (st : FanSt) => FanIdInv (st.results.map (·.ring_id)) st.counter)
      _ _ _ h0 ?_
    intro s a _ hP
    exact checkAccountFan_inv rows dfS thr wh a asRec s hP
  refine ⟨_, key (fanCandidates rows thr (·.sender))
    (stableSortBy (fun a b => a.ts ≤ b.ts) rows) false _
    (key (fanCandidates rows thr (·.receiver))
      (stableSortBy (fun a b => a.ts ≤ b.ts) rows) true
      ⟨0, [], reg₀⟩ (fanIdInv_nil _))⟩

theorem shellEmit_inv (g : List Edge) (path : List String) (st : ShellSt)
    (h : RingIdInv "SHELL-" (st.results.map (·.ring_id)) st.counter) :
    RingIdInv "SHELL-" ((shellEmit g path st).results.map (·.ring_id))
      (shellEmit g path st).counter := by
  rw [shellEmit]
  split
  · exact h
  · simp only [List.map_append, List.map_cons, List.map_nil]
    exact ringIdInv_append h

theorem shellSteps_inv (g : List Edge) (shellN : List String) (minHops : ℕ) :
    ∀ (fuel : ℕ) (stack : List (List String × List String × Bool))
      (st : ShellSt),
      RingIdInv "SHELL-" (st.results.map (·.ring_id)) st.counter →
      RingIdInv "SHELL-"
        ((shellSteps g shellN minHops fuel stack st).results.map (·.ring_id))
        (shellSteps g shellN minHops fuel stack st).counter := by
  intro fuel
  induction fuel with
  | zero => intro stack st h; exact h
  | succ f ih =>
    intro stack st h
    match stack with
    | [] => exact h
    | (path, [], ext) :: stack =>
      rw [shellSteps]
      apply ih
      split
      · exact shellEmit_inv g path st h
      · exact h
    | (path, nb :: rest, ext) :: stack =>
      rw [shellSteps]
      split
      · exact ih _ _ h
      · exact ih _ _ h

theorem detectShellNetworks_ids (maxTxns minHops : ℕ) (rows : List Tx)
    (reg₀ : List Entry) :
    ∃ c, RingIdInv "SHELL-"
      ((detectShellNetworks maxTxns minHops rows reg₀).1.map (·.ring_id)) c := by
  have key : ∀ (nodes : List String) (g : List Edge) (shellN : List String)
      (st0 : ShellSt),
      RingIdInv "SHELL-" (st0.results.map (·.ring_id)) st0.counter →
      RingIdInv "SHELL-"
        ((nodes.foldl (fun st node =>
          if ((preds g node).filter (fun p => shellN.contains p)).isEmpty
          then shellSteps g shellN minHops dfsFuel
            [([node], succs g node, false)] st
          else st) st0).results.map (·.ring_id))
        ((nodes.foldl (fun st node =>
          if ((preds g node).filter (fun p => shellN.contains p)).isEmpty
          then shellSteps g shellN minHops dfsFuel
            [([node], succs g node, false)] st
          else st) st0).counter) := by
    intro nodes g shellN st0 h0
    refine foldl_inv
      (fun (st : ShellSt) =>
        RingIdInv "SHELL-" (st.results.map (·.ring_id)) st.counter)
      _ _ _ h0 ?_
    intro s node _ hP
    split
    · exact shellSteps_inv g shellN minHops dfsFuel _ s hP
    · exact hP
  exact ⟨_, key (shellNodesOf rows maxTxns) (buildGraph rows)
    (shellNodesOf rows maxTxns) ⟨[], [], 0, reg₀⟩ (ringIdInv_nil _ _)⟩

theorem structStep_inv (rows inBandSorted : List Tx) (ceiling lower : ℚ)
    (minSenders : ℕ) (wh : ℤ) (receiver : String) (st : StructSt)
    (h : RingIdInv "STRUCT-" (st.results.map (·.ring_id)) st.counter) :
    RingIdInv "STRUCT-"
      ((structStep rows inBandSorted ceiling lower minSenders wh receiver
        st).results.map (·.ring_id))
      (structStep rows inBandSorted ceiling lower minSenders wh receiver
        st).counter := by
  rw [structStep]
  split
  · exact h
  · simp only [List.map_append, List.map_cons, List.map_nil]
    exact ringIdInv_append h

theorem detectStructuring_ids (ceiling bandPct : ℚ) (minSenders : ℕ)
    (wh : ℤ) (rows : List Tx) (reg₀ : List Entry) :
    ∃ c, RingIdInv "STRUCT-"
      ((detectStructuring ceiling bandPct minSenders wh rows reg₀).1.map
        (·.ring_id)) c := by
  rw [detectStructuring]
  split
  · exact ⟨0, ringIdInv_nil _ _⟩
  · have key : ∀ (receivers : List String) (inB : List Tx) (lower : ℚ)
        (st0 : StructSt),
        RingIdInv "STRUCT-" (st0.results.map (·.ring_id)) st0.counter →
        RingIdInv "STRUCT-"
          ((receivers.foldl (fun st r =>
            structStep rows inB ceiling lower minSenders wh r st)
            st0).results.map (·.ring_id))
          ((receivers.foldl (fun st r =>
            structStep rows inB ceiling lower minSenders wh r st)
            st0).counter) := by
      intro receivers inB lower st0 h0
      refine foldl_inv
        (fun (st : StructSt) =>
          RingIdInv "STRUCT-" (st.results.map (·.ring_id)) st.counter)
        _ _ _ h0 ?_
      intro s r _ hP
      exact structStep_inv rows inB ceiling lower minSenders wh r s hP
    exact ⟨_, key _ _ _ ⟨0, [], reg₀⟩ (ringIdInv_nil _ _)⟩

theorem nodup_append4 {A B C D : List String} (hA : A.Nodup) (hB : B.Nodup)
    (hC : C.Nodup) (hD : D.Nodup)
    (hAB : ∀ x ∈ A, x ∉ B) (hAC : ∀ x ∈ A, x ∉ C) (hAD : ∀ x ∈ A, x ∉ D)
    (hBC : ∀ x ∈ B, x ∉ C) (hBD : ∀ x ∈ B, x ∉ D)
    (hCD : ∀ x ∈ C, x ∉ D) : (A ++ B ++ C ++ D).Nodup := by
  rw [List.nodup_append]
  refine ⟨?_, hD, ?_⟩
  · rw [List.nodup_append]
    refine ⟨?_, hC, ?_⟩
    · rw [List.nodup_append]
      exact ⟨hA, hB, hAB⟩
    · intro x hx
      rcases List.mem_append.1 hx with h | h
      · exact hAC x h
      · exact hBC x h
  · intro x hx
    rcases List.mem_append.1 hx with h | h
    · rcases List.mem_append.1 h with h' | h'
      · exact hAD x h'
      · exact hBD x h'
    · exact hCD x h

/-- Ring ids are unique across the whole `fraud_rings` map: each
detector's ids come from its own strictly increasing counter, and the
five prefixes `CYCLE-`, `FAN-IN-`, `FAN-OUT-`, `SHELL-`, `STRUCT-` are
pairwise incompatible. -/
theorem fraudRingIds_nodup (rows : List Tx) :
    (fraudRingIds (runDetectors rows)).Nodup := by
  obtain ⟨c1, h1⟩ := detectCycles_ids 3 5 rows []
  obtain ⟨c2, h2⟩ := detectFanInOut_ids 10 72 rows
    (detectCycles 3 5 rows []).2
  obtain ⟨c3, h3⟩ := detectShellNetworks_ids 5 3 rows
    (detectFanInOut 10 72 rows (detectCycles 3 5 rows []).2).2
  obtain ⟨c4, h4⟩ := detectStructuring_ids 10000 (8 / 100) 5 168 rows
    (detectShellNetworks 5 3 rows
      (detectFanInOut 10 72 rows (detectCycles 3 5 rows []).2).2).2
  have hk1 : ∀ x ∈ (detectCycles 3 5 rows []).1.map (·.ring_id),
      idKind x = 0 := by
    intro x hx
    obtain ⟨k, hk⟩ := mem_ringIdInv h1 hx
    rw [hk, idKind_cycle]
  have hk2 : ∀ x ∈ (detectFanInOut 10 72 rows
      (detectCycles 3 5 rows []).2).1.map (·.ring_id),
      idKind x = 1 ∨ idKind x = 2 := by
    intro x hx
    rcases mem_fanIdInv h2 hx with ⟨k, hk⟩ | ⟨k, hk⟩
    · left
      rw [hk, idKind_fanIn]
    · right
      rw [hk, idKind_fanOut]
  have hk3 : ∀ x ∈ (detectShellNetworks 5 3 rows
      (detectFanInOut 10 72 rows (detectCycles 3 5 rows []).2).2).1.map
        (·.ring_id),
      idKind x = 3 := by
    intro x hx
    obtain ⟨k, hk⟩ := mem_ringIdInv h3 hx
    rw [hk, idKind_shell]
  have hk4 : ∀ x ∈ (detectStructuring 10000 (8 / 100) 5 168 rows
      (detectShellNetworks 5 3 rows
        (detectFanInOut 10 72 rows (detectCycles 3 5 rows []).2).2).2).1.map
        (·.ring_id),
      idKind x = 4 := by
    intro x hx
    obtain ⟨k, hk⟩ := mem_ringIdInv h4 hx
    rw [hk, idKind_struct]
  refine nodup_append4 (ringIdInv_nodup h1) (fanIdInv_nodup h2)
    (ringIdInv_nodup h3) (ringIdInv_nodup h4) ?_ ?_ ?_ ?_ ?_ ?_
  · intro x hx hx'
    rcases hk2 x hx' with h | h
    · rw [hk1 x hx] at h
      exact absurd h (by norm_num)
    · rw [hk1 x hx] at h
      exact absurd h (by norm_num)
  · intro x hx hx'
    have := hk3 x hx'
    rw [hk1 x hx] at this
    exact absurd this (by norm_num)
  · intro x hx hx'
    have := hk4 x hx'
    rw [hk1 x hx] at this
    exact absurd this (by norm_num)
  · intro x hx hx'
    have := hk3 x hx'
    rcases hk2 x hx with h | h <;> rw [h] at this <;>
      exact absurd this (by norm_num)
  · intro x hx hx'
    have := hk4 x hx'
    rcases hk2 x hx with h | h <;> rw [h] at this <;>
      exact absurd this (by norm_num)
  · intro x hx hx'
    have := hk4 x hx'
    rw [hk3 x hx] at this
    exact absurd this (by norm_num)

/-! ## Shell-chain length invariant -/

theorem shellSteps_chainLen (g : List Edge) (shellN : List String)
    (minHops : ℕ) :
    ∀ (fuel : ℕ) (stack : List (List String × List String × Bool))
      (st : ShellSt),
      (∀ r ∈ st.results, minHops ≤ r.chain.length) →
      ∀ r ∈ (shellSteps g shellN minHops fuel stack st).results,
        minHops ≤ r.chain.length := by
  intro fuel
  induction fuel with
  | zero => intro stack st h; exact h
  | succ f ih =>
    intro stack st h
    match stack with
    | [] => exact h
    | (path, [], ext) :: stack =>
      rw [shellSteps]
      apply ih
      split
      · rename_i hcond
        rw [shellEmit]
        split
        · exact h
        · intro r hr
          rcases List.mem_append.1 hr with hr | hr
          · exact h r hr
          · rw [List.mem_singleton] at hr
            subst hr
            have h2 := (Bool.and_eq_true _ _ ▸ hcond).2
            exact of_decide_eq_true h2
      · exact h
    | (path, nb :: rest, ext) :: stack =>
      rw [shellSteps]
      split
      · exact ih _ _ h
      · exact ih _ _ h

/-- Every chain the shell detector emits has at least `min_hops` nodes
(the emission guard is `len(path) >= min_hops`). -/
theorem detectShellNetworks_chainLen (maxTxns minHops : ℕ)
    (rows : List Tx) (reg₀ : List Entry) :
    ∀ r ∈ (detectShellNetworks maxTxns minHops rows reg₀).1,
      minHops ≤ r.chain.length := by
  have key : ∀ (nodes : List String) (g : List Edge) (shellN : List String)
      (st0 : ShellSt),
      (∀ r ∈ st0.results, minHops ≤ r.chain.length) →
      ∀ r ∈ (nodes.foldl (fun st node =>
          if ((preds g node).filter (fun p => shellN.contains p)).isEmpty
          then shellSteps g shellN minHops dfsFuel
            [([node], succs g node, false)] st
          else st) st0).results,
        minHops ≤ r.chain.length := by
    intro nodes g shellN st0 h0
    refine foldl_inv
      (fun (st : ShellSt) => ∀ r ∈ st.results, minHops ≤ r.chain.length)
      _ _ _ h0 ?_
    intro s node _ hP
    split
    · exact shellSteps_chainLen g shellN minHops dfsFuel _ s hP
    · exact hP
  exact key (shellNodesOf rows maxTxns) (buildGraph rows)
    (shellNodesOf rows maxTxns) ⟨[], [], 0, reg₀⟩ (by simp)

/-! ## Cycle-detector invariants: recorded totals and marked accounts -/

theorem markFold_account_ids (cycle : List String) (ring_id : String)
    (acc : List Entry) :
    ∀ b ∈ (cycle.foldl (fun r a =>
        markSuspicious r a ("Participates in transaction cycle " ++ ring_id)
          ring_id [("cycle_length", Val.i cycle.length)]) acc).map
        (·.account_id),
      b ∈ acc.map (·.account_id) ∨ b ∈ cycle := by
  refine foldl_inv
    (fun (r : List Entry) => ∀ b ∈ r.map (·.account_id),
      b ∈ acc.map (·.account_id) ∨ b ∈ cycle)
    _ _ _ (fun b hb => Or.inl hb) ?_
  intro r a ha hP b hb
  rcases markSuspicious_account_ids r a _ _ _
    (by
      intro v hv
      rw [List.mem_singleton] at hv
      have h1 : "account_id" = "cycle_length" := congrArg Prod.fst hv
      exact absurd h1 (by decide)) b hb with h | h
  · exact hP b h
  · subst h
    exact Or.inr ha

theorem cycleStep_cycInv (g : List Edge) (minLen maxLen : ℕ)
    (reg₀ : List Entry) (st : CycSt) (cycle : List String)
    (h : CycInv g reg₀ st) :
    CycInv g reg₀ (cycleStep g minLen maxLen st cycle) := by
  rw [cycleStep]
  split
  · dsimp only
    split
    · exact h
    · split
      · exact ⟨h.1, h.2⟩
      · rename_i hge
        constructor
        · intro r hr
          rcases List.mem_append.1 hr with hr | hr
          · exact h.1 r hr
          · rw [List.mem_singleton] at hr
            subst hr
            exact ⟨rfl, by linarith [not_lt.1 hge]⟩
        · intro b hb
          rcases markFold_account_ids cycle _ st.reg b hb with hb' | hb'
          · rcases h.2 b hb' with h2 | ⟨r, hr, hbr⟩
            · exact Or.inl h2
            · exact Or.inr ⟨r, List.mem_append.2 (Or.inl hr), hbr⟩
          · refine Or.inr ⟨_, List.mem_append.2 (Or.inr (List.mem_singleton.2 rfl)), ?_⟩
            exact hb'
  · exact h

/-- The two sides of the cycle detector's $1,000 rule, over any input:
every recorded ring's `total_amount` is the rounded sum of edge weights
over adjacent pairs where the edge exists, that sum is at least $1,000,
and every account the detector adds to the registry lies on a recorded
ring's cycle. -/
theorem detectCycles_inv (minLen maxLen : ℕ) (rows : List Tx)
    (reg₀ : List Entry) :
    (∀ r ∈ (detectCycles minLen maxLen rows reg₀).1,
      r.total_amount = round2 (cycleTotal (buildGraph rows) r.cycle)
        ∧ 1000 ≤ cycleTotal (buildGraph rows) r.cycle)
    ∧ ∀ b ∈ (detectCycles minLen maxLen rows reg₀).2.map (·.account_id),
        b ∈ reg₀.map (·.account_id)
          ∨ ∃ r ∈ (detectCycles minLen maxLen rows reg₀).1, b ∈ r.cycle := by
  have key : ∀ (sccs : List (List String)) (st0 : CycSt),
      CycInv (buildGraph rows) reg₀ st0 →
      CycInv (buildGraph rows) reg₀
        (sccs.foldl (fun st scc =>
          ((simpleCyclesModel (buildGraph rows) scc).take 10000).foldl
            (cycleStep (buildGraph rows) minLen maxLen) st) st0) := by
    intro sccs st0 h0
    refine foldl_inv (CycInv (buildGraph rows) reg₀) _ _ _ h0 ?_
    intro s scc _ hP
    refine foldl_inv (CycInv (buildGraph rows) reg₀) _ _ _ hP ?_
    intro s' cyc _ hP'
    exact cycleStep_cycInv (buildGraph rows) minLen maxLen reg₀ s' cyc hP'
  exact key ((sccsOf (buildGraph rows)).filter
    (fun scc => decide (minLen ≤ scc.length))) ⟨[], [], 0, reg₀⟩
    ⟨by simp, fun b hb => Or.inl hb⟩

/-! ## Graph-builder aggregation facts -/

theorem buildGraph_pairs (rows : List Tx) :
    (buildGraph rows).map (fun e => (e.src, e.dst))
      = dedupFirst (rows.map (fun t => (t.sender, t.receiver))) := by
  rw [buildGraph, List.map_map]
  have hcomp : ((fun e => (e.src, e.dst)) ∘ (fun (p : String × String) =>
      let grp := pairRows rows p.1 p.2
      ({ src := p.1, dst := p.2,
         weight := (grp.map (·.amount)).sum,
         txCount := grp.length,
         txIds := grp.map (·.txid) } : Edge))) = id := funext fun p => rfl
  rw [hcomp, List.map_id]

theorem buildGraph_pairs_nodup (rows : List Tx) :
    ((buildGraph rows).map (fun e => (e.src, e.dst))).Nodup := by
  rw [buildGraph_pairs]
  exact nodup_dedupFirst _

theorem mem_buildGraph (rows : List Tx) {e : Edge} (he : e ∈ buildGraph rows) :
    e.weight = ((pairRows rows e.src e.dst).map (·.amount)).sum
      ∧ e.txCount = (pairRows rows e.src e.dst).length
      ∧ e.txIds = (pairRows rows e.src e.dst).map (·.txid)
      ∧ ∃ t ∈ rows, t.sender = e.src ∧ t.receiver = e.dst := by
  rw [buildGraph] at he
  obtain ⟨p, hp, rfl⟩ := List.mem_map.1 he
  have hp' := mem_dedupFirst.1 hp
  obtain ⟨t, ht, hpt⟩ := List.mem_map.1 hp'
  exact ⟨rfl, rfl, rfl,
    t, ht, congrArg Prod.fst hpt, congrArg Prod.snd hpt⟩

theorem buildGraph_exists_iff (rows : List Tx) (s r : String) :
    (∃ e ∈ buildGraph rows, e.src = s ∧ e.dst = r)
      ↔ ∃ t ∈ rows, t.sender = s ∧ t.receiver = r := by
  constructor
  · rintro ⟨e, he, rfl, rfl⟩
    exact (mem_buildGraph rows he).2.2.2
  · rintro ⟨t, ht, hs, hr⟩
    refine ⟨(fun (p : String × String) =>
      let grp := pairRows rows p.1 p.2
      ({ src := p.1, dst := p.2,
         weight := (grp.map (·.amount)).sum,
         txCount := grp.length,
         txIds := grp.map (·.txid) } : Edge)) (s, r),
      List.mem_map.2 ⟨(s, r), mem_dedupFirst.2
        (List.mem_map.2 ⟨t, ht, by rw [hs, hr]⟩), rfl⟩, rfl, rfl⟩

theorem pairRows_ne_nil_of_mem (rows : List Tx) {t : Tx} (ht : t ∈ rows)
    (s r : String) (hs : t.sender = s) (hr : t.receiver = r) :
    1 ≤ (pairRows rows s r).length := by
  have : t ∈ pairRows rows s r := by
    rw [pairRows, List.mem_filter]
    exact ⟨ht, by rw [Bool.and_eq_true, beq_iff_eq, beq_iff_eq]; exact ⟨hs, hr⟩⟩
  exact List.length_pos.2 (List.ne_nil_of_mem this)

/-! ## Legitimacy gate: rings recorded, registry untouched -/

theorem checkAccountFan_legit (rows dfSorted : List Tx) (threshold : ℕ)
    (windowHours : ℤ) (account_id : String) (asReceiver : Bool)
    (st : FanSt) (hleg : isLikelyLegitimate rows account_id = true) :
    (checkAccountFan rows dfSorted threshold windowHours account_id
        asReceiver st).reg = st.reg
      ∧ ∃ tl, (checkAccountFan rows dfSorted threshold windowHours
          account_id asReceiver st).results = st.results ++ tl := by
  rw [checkAccountFan]
  split
  · exact ⟨rfl, [], (List.append_nil _).symm⟩
  · dsimp only
    rw [if_pos hleg]
    exact ⟨rfl, _, rfl⟩

theorem structStep_legit (rows inBandSorted : List Tx) (ceiling lower : ℚ)
    (minSenders : ℕ) (windowHours : ℤ) (receiver : String)
    (st : StructSt) (hleg : isLikelyLegitimate rows receiver = true) :
    (structStep rows inBandSorted ceiling lower minSenders windowHours
        receiver st).reg = st.reg
      ∧ ∃ tl, (structStep rows inBandSorted ceiling lower minSenders
          windowHours receiver st).results = st.results ++ tl := by
  rw [structStep]
  split
  · exact ⟨rfl, [], (List.append_nil _).symm⟩
  · dsimp only
    rw [if_pos hleg]
    exact ⟨rfl, _, rfl⟩

theorem scoreAll_account_of_mem (rows : List Tx) (reg : List Entry)
    (vth : ℕ) (rec : ScoreRec) (hrec : rec ∈ scoreAll rows reg vth) :
    ∃ e ∈ reg, rec.account_id = e.account_id := by
  rw [scoreAll, mem_stableSortBy] at hrec
  obtain ⟨e, he, rfl⟩ := List.mem_map.1 hrec
  exact ⟨e, he, rfl⟩

theorem scoreAll_absent (rows : List Tx) (reg : List Entry) (vth : ℕ)
    (a : String) (h : regEntry? reg a = none) :
    ∀ rec ∈ scoreAll rows reg vth, rec.account_id ≠ a := by
  intro rec hrec
  obtain ⟨e, he, heq⟩ := scoreAll_account_of_mem rows reg vth rec hrec
  rw [regEntry?, List.find?_eq_none] at h
  intro hcontr
  exact h e he (by rw [beq_iff_eq, ← heq, hcontr])

/-! ## The scoring formula as the (amended) spec words it -/

theorem scoreAccount_eq_specFlat (rows : List Tx) (reg : List Entry)
    (vth : ℕ) (a : String) (h : txTotalCount rows a < 50) :
    scoreAccount rows reg vth a = some (specFlatScore rows reg vth a) := by
  rw [scoreAccount, specFlatScore]
  dsimp only
  rw [if_neg (not_le.2 h)]
  cases regEntry? reg a with
  | none => rfl
  | some info => rfl

/-! ## Skip gate and score bounds over the whole scorer output -/

theorem scoreAll_skip_bounds (rows : List Tx) (reg : List Entry)
    (vth : ℕ) :
    ∀ rec ∈ scoreAll rows reg vth,
      (rec.skipped = true ↔ 50 ≤ txTotalCount rows rec.account_id)
      ∧ (rec.skipped = true → rec.score = none)
      ∧ ∀ s, rec.score = some s → 0 ≤ s ∧ s ≤ 100 := by
  intro rec hrec
  rw [scoreAll, mem_stableSortBy] at hrec
  obtain ⟨info, hinfo, rfl⟩ := List.mem_map.1 hrec
  rw [scoreRecOf]
  dsimp only
  refine ⟨by rw [decide_eq_true_iff], ?_, ?_⟩
  · intro hsk
    rw [if_pos (of_decide_eq_true hsk)]
  · intro s hs
    split at hs
    · exact absurd hs (by simp)
    · exact scoreAccount_bounds rows reg vth info.account_id s hs

/-! ## The claims -/

/-- C1: for every registry account that is not skipped (< 50 total
transactions), `score_account` returns the flat additive score — 40 for a
cycle reason, 30 for a fan reason multiplied by 1.3 when the parsed
window is at most 72 hours, 20 for a shell reason, 10 for the velocity
flag — capped at 100 and rounded to four decimals, as `specFlatScore`
words it.  (The spec's per-pattern ramp formulas and its 32.5 hub value
are refuted by `C1_hub_score_counterexample`.) -/
theorem C1_score_formula (rows : List Tx) (reg : List Entry) (vth : ℕ)
    (a : String) (h : txTotalCount rows a < 50) :
    scoreAccount rows reg vth a = some (specFlatScore rows reg vth a) :=
  scoreAccount_eq_specFlat rows reg vth a h

theorem C1_score_formula_witness :
    txTotalCount rowsFanHub "HUB" < 50
      ∧ scoreAccount rowsFanHub (runDetectors rowsFanHub).reg 5 "HUB"
        = some (specFlatScore rowsFanHub (runDetectors rowsFanHub).reg 5 "HUB") :=
  ⟨by decide,
   C1_score_formula rowsFanHub (runDetectors rowsFanHub).reg 5 "HUB" (by decide)⟩

/-- C1 counterexample: the hub of a 15-sender fan-in (with the velocity
flag) scores 49 = 30·1.3 + 10, not the spec's ramped 32.5 (nor 32.5 + 10
nor 45.5). -/
theorem C1_hub_score_counterexample :
    scoreAccount rowsFanHub (runDetectors rowsFanHub).reg 5 "HUB" = some 49
      ∧ (49 : ℚ) ≠ 325 / 10 ∧ (49 : ℚ) ≠ 425 / 10 ∧ (49 : ℚ) ≠ 455 / 10 := by
  decide

/-- C2 (code bug): the cycle detector assigns `HUB` ring id
`CYCLE-0001`; the later fan-in mark then *overwrites* it with
`FAN-IN-0001` because `entry.update(extra)` merges an `info` dict that
itself carries a `ring_id` key — contradicting both the spec and the
code's own `Keep the first ring_id assigned` comment. -/
theorem C2_ring_id_overwritten :
    (regEntry? (detectCycles 3 5 rowsCycleFan []).2 "HUB").map (·.ring_id)
        = some (some "CYCLE-0001")
      ∧ (regEntry? (detectFanInOut 10 72 rowsCycleFan
            (detectCycles 3 5 rowsCycleFan []).2).2 "HUB").map (·.ring_id)
        = some (some "FAN-IN-0001") := by
  decide

/-- C3 (amended): every chain the shell detector emits has at least
`min_hops` *nodes* (the guard is `len(path) >= min_hops`), not
`min_hops + 1`: with the default `min_hops = 3`, 3-node chains are
emitted (`C3_three_node_chain_counterexample`), though no single-node
path ever is. -/
theorem C3_shell_min_hops (maxTxns minHops : ℕ) (rows : List Tx)
    (reg₀ : List Entry) :
    ∀ r ∈ (detectShellNetworks maxTxns minHops rows reg₀).1,
      minHops ≤ r.chain.length :=
  detectShellNetworks_chainLen maxTxns minHops rows reg₀

theorem C3_shell_min_hops_witness :
    3 ≤ (((detectShellNetworks 5 3 rowsShell3 []).1.get
      ⟨0, by decide⟩).chain).length :=
  C3_shell_min_hops 5 3 rowsShell3 [] _ (List.get_mem _ _ _)

/-- C3 counterexample: `S1 → S2 → S3` is emitted as a 3-node chain at
`min_hops = 3`, refuting the claimed `min_hops + 1`-node minimum. -/
theorem C3_three_node_chain_counterexample :
    (detectShellNetworks 5 3 rowsShell3 []).1.map (·.chain)
        = [["S1", "S2", "S3"]]
      ∧ ¬ (∀ r ∈ (detectShellNetworks 5 3 rowsShell3 []).1,
            3 + 1 ≤ r.chain.length) := by
  decide

/-- C4 (amended): for the permuted pair `rowsTriA` / `rowsTriB`, the
full analysis yields identical per-account content apart from ring-id
assignment — the sorted records agree on every field except `ring_id`
and the ring-id-bearing `reasons` text, and the `ring_id` columns
genuinely differ, so the full records are not order-invariant
(`C4_perm_counterexample`). -/
theorem C4_perm_content_invariant :
    rowsTriA.Perm rowsTriB
      ∧ (sortedSuspicious rowsTriA).map scoreContent
          = (sortedSuspicious rowsTriB).map scoreContent
      ∧ (sortedSuspicious rowsTriA).map (·.ring_id)
          ≠ (sortedSuspicious rowsTriB).map (·.ring_id) := by
  decide

/-- C4 counterexample: the same six rows in two orders give different
`suspicious_accounts` content even after the claim's sort — the two
disjoint triangles swap ring ids `CYCLE-0001`/`CYCLE-0002`. -/
theorem C4_perm_counterexample :
    rowsTriA.Perm rowsTriB
      ∧ sortedSuspicious rowsTriA ≠ sortedSuspicious rowsTriB := by
  decide

/-- C5: a fan or structuring finding on an account the legitimacy
classifier clears is still appended to the returned ring list, but the
registry is left untouched, and an account absent from the registry
never appears in `score_all`'s output; concretely, the payroll fan-out
and the repeating-sender structuring case each record one ring while
marking nothing and producing no suspicious accounts. -/
theorem C5_legit_gate :
    (∀ (rows dfSorted : List Tx) (threshold : ℕ) (windowHours : ℤ)
        (a : String) (asReceiver : Bool) (st : FanSt),
        isLikelyLegitimate rows a = true →
        (checkAccountFan rows dfSorted threshold windowHours a
            asReceiver st).reg = st.reg
          ∧ ∃ tl, (checkAccountFan rows dfSorted threshold windowHours a
              asReceiver st).results = st.results ++ tl)
    ∧ (∀ (rows inBandSorted : List Tx) (ceiling lower : ℚ)
        (minSenders : ℕ) (windowHours : ℤ) (receiver : String)
        (st : StructSt),
        isLikelyLegitimate rows receiver = true →
        (structStep rows inBandSorted ceiling lower minSenders windowHours
            receiver st).reg = st.reg
          ∧ ∃ tl, (structStep rows inBandSorted ceiling lower minSenders
              windowHours receiver st).results = st.results ++ tl)
    ∧ (∀ (rows : List Tx) (reg : List Entry) (vth : ℕ) (a : String),
        regEntry? reg a = none →
        ∀ rec ∈ scoreAll rows reg vth, rec.account_id ≠ a)
    ∧ ((runDetectors rowsPayroll).fans.map (·.ring_id) = ["FAN-OUT-0001"]
        ∧ (runDetectors rowsPayroll).reg = []
        ∧ suspiciousAccounts rowsPayroll = [])
    ∧ ((runDetectors rowsStructLegit).structs.map (·.ring_id)
          = ["STRUCT-0001"]
        ∧ (runDetectors rowsStructLegit).reg = []
        ∧ suspiciousAccounts rowsStructLegit = []) :=
  ⟨checkAccountFan_legit, structStep_legit, scoreAll_absent,
   by decide, by decide⟩

theorem C5_legit_gate_witness :
    isLikelyLegitimate rowsPayroll "PAYER" = true
      ∧ (checkAccountFan rowsPayroll rowsPayroll 10 72 "PAYER" false
          ⟨0, [], []⟩).reg = [] :=
  ⟨by decide,
   (C5_legit_gate.1 rowsPayroll rowsPayroll 10 72 "PAYER" false
     ⟨0, [], []⟩ (by decide)).1⟩

/-- C6: every recorded cycle ring's `total_amount` is the rounded sum of
edge weights over adjacent pairs in cycle order where the edge exists,
that sum is at least $1,000, every account the cycle detector marks lies
on a recorded ring's cycle, and the $300 triangle produces no ring and
no marks. -/
theorem C6_cycle_total_and_filter :
    (∀ (minLen maxLen : ℕ) (rows : List Tx) (reg₀ : List Entry),
      (∀ r ∈ (detectCycles minLen maxLen rows reg₀).1,
        r.total_amount = round2 (cycleTotal (buildGraph rows) r.cycle)
          ∧ 1000 ≤ cycleTotal (buildGraph rows) r.cycle)
      ∧ ∀ b ∈ (detectCycles minLen maxLen rows reg₀).2.map (·.account_id),
          b ∈ reg₀.map (·.account_id)
            ∨ ∃ r ∈ (detectCycles minLen maxLen rows reg₀).1, b ∈ r.cycle)
    ∧ (detectCycles 3 5 rowsSmallCycle []).1 = []
    ∧ (detectCycles 3 5 rowsSmallCycle []).2 = [] :=
  ⟨fun minLen maxLen rows reg₀ => detectCycles_inv minLen maxLen rows reg₀,
   by decide, by decide⟩

theorem C6_cycle_total_and_filter_witness :
    ((detectCycles 3 5 rowsTriA []).1.get ⟨0, by decide⟩).total_amount
        = round2 (cycleTotal (buildGraph rowsTriA)
            ((detectCycles 3 5 rowsTriA []).1.get ⟨0, by decide⟩).cycle)
      ∧ 1000 ≤ cycleTotal (buildGraph rowsTriA)
          ((detectCycles 3 5 rowsTriA []).1.get ⟨0, by decide⟩).cycle :=
  (C6_cycle_total_and_filter.1 3 5 rowsTriA []).1 _ (List.get_mem _ _ _)

/-- C7: in every `score_all` output record, `skipped` holds exactly when
the account has at least 50 total transactions, a skipped record carries
no score, and every present score lies in [0, 100]. -/
theorem C7_skip_gate (rows : List Tx) (reg : List Entry) (vth : ℕ) :
    ∀ rec ∈ scoreAll rows reg vth,
      (rec.skipped = true ↔ 50 ≤ txTotalCount rows rec.account_id)
      ∧ (rec.skipped = true → rec.score = none)
      ∧ ∀ s, rec.score = some s → 0 ≤ s ∧ s ≤ 100 :=
  scoreAll_skip_bounds rows reg vth

theorem C7_skip_gate_witness :
    ((scoreAll rowsFanHub (runDetectors rowsFanHub).reg 5).get
        ⟨0, by decide⟩).skipped = true
      ↔ 50 ≤ txTotalCount rowsFanHub
          ((scoreAll rowsFanHub (runDetectors rowsFanHub).reg 5).get
            ⟨0, by decide⟩).account_id :=
  (C7_skip_gate rowsFanHub (runDetectors rowsFanHub).reg 5 _
    (List.get_mem _ _ _)).1

/-- C8 (amended): ring ids are unique across the `fraud_rings` map for
every input — but not because each of the five patterns keeps its own
counter: fan-in and fan-out share one counter
(`C8_shared_fan_counter_counterexample`); uniqueness holds because each
detector's ids are strictly increasing and the five prefixes differ. -/
theorem C8_ring_ids_unique (rows : List Tx) :
    (fraudRingIds (runDetectors rows)).Nodup :=
  fraudRingIds_nodup rows

/-- C8 counterexample: one fan-in and one fan-out in the same run are
numbered `FAN-IN-0001` and `FAN-OUT-0002` — the fan-out does not get its
own `0001`, refuting the per-pattern-counter claim. -/
theorem C8_shared_fan_counter_counterexample :
    (runDetectors rowsFanBoth).fans.map (·.ring_id)
        = ["FAN-IN-0001", "FAN-OUT-0002"]
      ∧ "FAN-OUT-0001" ∉ (runDetectors rowsFanBoth).fans.map (·.ring_id) := by
  decide

/-- C9: the graph builder makes exactly one edge per distinct ordered
(sender, receiver) pair of the table, whose weight, tx_count (≥ 1) and
tx_ids aggregate that pair's rows in table order; the empty table gives
the empty graph and every detector maps it to an empty ring list with
the registry unchanged. -/
theorem C9_graph_builder :
    (∀ rows : List Tx,
      ((buildGraph rows).map (fun e => (e.src, e.dst))).Nodup)
    ∧ (∀ (rows : List Tx) (e : Edge), e ∈ buildGraph rows →
        e.weight = ((pairRows rows e.src e.dst).map (·.amount)).sum
          ∧ e.txCount = (pairRows rows e.src e.dst).length
          ∧ e.txIds = (pairRows rows e.src e.dst).map (·.txid)
          ∧ 1 ≤ e.txCount)
    ∧ (∀ (rows : List Tx) (s r : String),
        (∃ e ∈ buildGraph rows, e.src = s ∧ e.dst = r)
          ↔ ∃ t ∈ rows, t.sender = s ∧ t.receiver = r)
    ∧ buildGraph [] = []
    ∧ (∀ (minLen maxLen : ℕ) (reg : List Entry),
        detectCycles minLen maxLen [] reg = ([], reg))
    ∧ (∀ (threshold : ℕ) (windowHours : ℤ) (reg : List Entry),
        detectFanInOut threshold windowHours [] reg = ([], reg))
    ∧ (∀ (maxTxns minHops : ℕ) (reg : List Entry),
        detectShellNetworks maxTxns minHops [] reg = ([], reg))
    ∧ (∀ (ceiling bandPct : ℚ) (minSenders : ℕ) (windowHours : ℤ)
        (reg : List Entry),
        detectStructuring ceiling bandPct minSenders windowHours [] reg
          = ([], reg)) := by
  refine ⟨buildGraph_pairs_nodup, ?_, buildGraph_exists_iff, rfl,
    fun _ _ _ => rfl, fun _ _ _ => rfl, fun _ _ _ => rfl,
    fun _ _ _ _ _ => rfl⟩
  intro rows e he
  obtain ⟨hw, hc, hi, t, ht, hs, hr⟩ := mem_buildGraph rows he
  exact ⟨hw, hc, hi, hc ▸ pairRows_ne_nil_of_mem rows ht e.src e.dst hs hr⟩

theorem C9_graph_builder_witness :
    ((buildGraph rowsShell3).get ⟨0, by decide⟩).weight
        = ((pairRows rowsShell3 ((buildGraph rowsShell3).get ⟨0, by decide⟩).src
            ((buildGraph rowsShell3).get ⟨0, by decide⟩).dst).map (·.amount)).sum
      ∧ ((buildGraph rowsShell3).get ⟨0, by decide⟩).txCount
        = (pairRows rowsShell3 ((buildGraph rowsShell3).get ⟨0, by decide⟩).src
            ((buildGraph rowsShell3).get ⟨0, by decide⟩).dst).length
      ∧ ((buildGraph rowsShell3).get ⟨0, by decide⟩).txIds
        = (pairRows rowsShell3 ((buildGraph rowsShell3).get ⟨0, by decide⟩).src
            ((buildGraph rowsShell3).get ⟨0, by decide⟩).dst).map (·.txid)
      ∧ 1 ≤ ((buildGraph rowsShell3).get ⟨0, by decide⟩).txCount :=
  C9_graph_builder.2.1 rowsShell3 _ (List.get_mem _ _ _)

/-- C10: in `detect_cycles` the counter is incremented before the $1,000
filter: on a $900 triangle followed by a $6,000 triangle the only
recorded ring is `CYCLE-0002`, and the `fraud_rings` keys contain
`CYCLE-0002` without `CYCLE-0001`. -/
theorem C10_nonconsecutive_cycle_ids :
    (runDetectors rowsSkipGap).cycles.map (·.ring_id) = ["CYCLE-0002"]
      ∧ fraudRingIds (runDetectors rowsSkipGap) = ["CYCLE-0002"]
      ∧ "CYCLE-0001" ∉ fraudRingIds (runDetectors rowsSkipGap) := by
  decide
